import Mathlib

/-!
Verification development for the videos-checker job queue / worker pool core.

The repository's core (spec.md §2) consists of a SQLite-backed Job Store
(`db.server`, bundled in `src/app/lib/events.server.ts`), a durable Log Sink
(`logs.server`, same file), an in-process Event Bus, and a Worker Pool
Controller (`src/unnamed/part_005`, the checker module).

Shallow embedding conventions:
- The SQLite tables become Lean lists of records; `AUTOINCREMENT` ids are
  modelled by a `nextJobId` counter.  `better-sqlite3` is fully synchronous,
  so every SQL statement (and every `db.transaction`) is one atomic step of
  the model: a Lean function from state to state.
- JavaScript strings are `String` where only equality/trim matter, and
  `List Char` (`Str`) in the Log Sink, where the code splits file content on
  newline characters and parses lines with a regular expression.
- Nullable SQL columns and optional JS parameters are `Option`.
- `Date.now()` / `datetime('now')` / `new Date().toISOString()` are clock
  oracle inputs, passed explicitly as `now : Nat` / `time : Str` parameters.
- The JS event loop suspends a `worker` only at `await checkFile(...)`;
  everything between two suspension points is synchronous and is modelled as
  one atomic Lean function.  The external checker tool's outcome is an
  oracle input supplied when a suspended worker resumes.
-/

/-! ## Data model (`db.server` section of src/app/lib/events.server.ts) -/

/-- `export type CheckMode = 'quick' | 'full'`. -/
inductive CheckMode where
  | quick
  | full
deriving DecidableEq, Repr

/-- `export type JobStatus = 'pending' | 'processing' | 'completed' | 'error'`. -/
inductive JobStatus where
  | pending
  | processing
  | completed
  | error
deriving DecidableEq, Repr

/-- One row of the `jobs` table (`interface JobRecord`). -/
structure JobRecord where
  id : Nat
  file_id : Nat
  mode : CheckMode
  status : JobStatus
  error_message : Option String
  duration : Option String
  created_at : Nat
  completed_at : Option Nat
deriving DecidableEq, Repr

/-- One row of the `files` table (`interface FileRecord`, the columns the
core reads: id, path, filename, duration, created_at). -/
structure FileRecord where
  id : Nat
  path : String
  filename : String
  duration : Option String
  created_at : Nat
deriving DecidableEq, Repr

/-- The SQLite database state: the two tables plus the jobs AUTOINCREMENT
counter. -/
structure DB where
  files : List FileRecord
  jobs : List JobRecord
  nextJobId : Nat
deriving DecidableEq, Repr

/-- `createJobs(fileIds, mode)`: one `pending` row inserted per file id,
inside one transaction (`db.transaction(... insert.run(id, mode) ...)`).
`created_at DATETIME DEFAULT CURRENT_TIMESTAMP` is the `now` argument. -/
def createJobs (fileIds : List Nat) (mode : CheckMode) (now : Nat) (db : DB) : DB :=
  if fileIds = [] then db
  else
    fileIds.foldl
      (fun d fid =>
        { d with
          jobs := d.jobs ++
            [{ id := d.nextJobId, file_id := fid, mode := mode, status := JobStatus.pending,
               error_message := none, duration := none, created_at := now, completed_at := none }],
          nextJobId := d.nextJobId + 1 })
      db

/-- Result shape of `claimNextPendingJob`: `{ job, file }`.  The SQL
`SELECT ... FROM files WHERE id = ?` can in principle return no row (the
JS code casts `undefined as FileRecord`), hence the `Option`. -/
structure ClaimResult where
  job : JobRecord
  file : Option FileRecord
deriving DecidableEq, Repr

/-- `claimNextPendingJob(mode)`: inside one `db.transaction` — select one
`pending` job of `mode` (`LIMIT 1`, no ORDER BY: modelled as the first
matching row in table order), flip it to `processing`, look up its file,
and return the job with `status: 'processing'`.  `better-sqlite3`
transactions are synchronous, so the whole claim is one atomic step. -/
def claimNextPendingJob (mode : CheckMode) (db : DB) : Option ClaimResult × DB :=
  match db.jobs.find? (fun j => decide (j.mode = mode ∧ j.status = JobStatus.pending)) with
  | some j =>
      (some { job := { j with status := JobStatus.processing },
              file := db.files.find? (fun f => decide (f.id = j.file_id)) },
       { db with
         jobs := db.jobs.map (fun r =>
           if r.id = j.id then { r with status := JobStatus.processing } else r) })
  | none => (none, db)

/-- JS `x || null` applied to an optional string parameter: `undefined`
and the empty string (both falsy) become SQL NULL. -/
def jsFalsyToNull (x : Option String) : Option String :=
  match x with
  | some s => if s = "" then none else some s
  | none => none

/-- JS truthiness of an optional string (`if (checkResult.duration)`). -/
def jsTruthy (x : Option String) : Bool :=
  match x with
  | some s => decide (s ≠ "")
  | none => false

/-- `updateJobStatus(jobId, status, errorMessage?, duration?)`: terminal
statuses overwrite `error_message`/`duration` (through `|| null`) and set
`completed_at = datetime('now')`; any other status touches only the
`status` column. -/
def updateJobStatus (jobId : Nat) (status : JobStatus) (errorMessage : Option String)
    (duration : Option String) (now : Nat) (jobs : List JobRecord) : List JobRecord :=
  if status = JobStatus.completed ∨ status = JobStatus.error then
    jobs.map (fun j =>
      if j.id = jobId then
        { j with status := status, error_message := jsFalsyToNull errorMessage,
                 duration := jsFalsyToNull duration, completed_at := some now }
      else j)
  else
    jobs.map (fun j => if j.id = jobId then { j with status := status } else j)

/-- `updateFileDuration(fileId, duration)`. -/
def updateFileDuration (fileId : Nat) (duration : String) (files : List FileRecord) :
    List FileRecord :=
  files.map (fun f => if f.id = fileId then { f with duration := some duration } else f)

/-- `deletePendingAndProcessingJobs(mode?)`. -/
def deletePendingAndProcessingJobs (mode : Option CheckMode) (jobs : List JobRecord) :
    List JobRecord :=
  jobs.filter (fun j =>
    decide (¬ ((j.status = JobStatus.pending ∨ j.status = JobStatus.processing) ∧
               (mode = none ∨ mode = some j.mode))))

/-- Result shape of `getJobStats()`.  `COUNT(*)` is always a number, but
each `SUM(CASE ...)` is SQL NULL when the `jobs` table has no rows. -/
structure JobStats where
  total : Nat
  pending : Option Nat
  processing : Option Nat
  completed : Option Nat
  error : Option Nat
deriving DecidableEq, Repr

/-- `getJobStats()`: one SQL statement over one snapshot of `jobs`. -/
def getJobStats (jobs : List JobRecord) : JobStats :=
  { total := jobs.length,
    pending :=
      if jobs = [] then none
      else some (jobs.countP (fun j => decide (j.status = JobStatus.pending))),
    processing :=
      if jobs = [] then none
      else some (jobs.countP (fun j => decide (j.status = JobStatus.processing))),
    completed :=
      if jobs = [] then none
      else some (jobs.countP (fun j => decide (j.status = JobStatus.completed))),
    error :=
      if jobs = [] then none
      else some (jobs.countP (fun j => decide (j.status = JobStatus.error))) }

example :
    (claimNextPendingJob CheckMode.quick
      { files := [], jobs := [{ id := 1, file_id := 1, mode := CheckMode.quick,
                                status := JobStatus.pending, error_message := none,
                                duration := none, created_at := 0, completed_at := none }],
        nextJobId := 2 }).1.map (fun r => r.job.status) = some JobStatus.processing := by
  decide

/-! ## Log Sink (`logs.server` section of src/app/lib/events.server.ts)

JS strings are modelled as `List Char` here, because the sink's round trip
splits durable file content on `'\n'` and parses each line with the regular
expression `^(\d{4}-\d{2}-\d{2}T\d{2}:\d{2}:\d{2}\.\d{3}Z) \[(stdout|stderr)\] (.*)$`. -/

/-- A JS string as a list of characters. -/
abbrev Str := List Char

/-- One character class of the log-line regular expression: `\d` or a
literal character. -/
inductive Tok where
  | digit
  | lit (c : Char)
deriving DecidableEq, Repr

/-- Whether a character matches a `Tok`. -/
def tokOk : Tok → Char → Bool
  | Tok.digit, c => c.isDigit
  | Tok.lit l, c => decide (c = l)

/-- Match a fixed-length character-class pattern against the front of a
string; return the consumed part and the rest. -/
def matchPat : List Tok → Str → Option (Str × Str)
  | [], s => some ([], s)
  | _ :: _, [] => none
  | t :: ts, c :: cs =>
    if tokOk t c then (matchPat ts cs).map (fun p => (c :: p.1, p.2)) else none

/-- The timestamp part of the log-line regex:
`\d{4}-\d{2}-\d{2}T\d{2}:\d{2}:\d{2}\.\d{3}Z` (what `toISOString` emits). -/
def isoPat : List Tok :=
  [Tok.digit, Tok.digit, Tok.digit, Tok.digit, Tok.lit '-', Tok.digit, Tok.digit,
   Tok.lit '-', Tok.digit, Tok.digit, Tok.lit 'T', Tok.digit, Tok.digit, Tok.lit ':',
   Tok.digit, Tok.digit, Tok.lit ':', Tok.digit, Tok.digit, Tok.lit '.',
   Tok.digit, Tok.digit, Tok.digit, Tok.lit 'Z']

/-- A string matches the ISO timestamp pattern exactly. -/
def isIsoTime (t : Str) : Prop := matchPat isoPat t = some (t, [])

instance (t : Str) : Decidable (isIsoTime t) := by
  unfold isIsoTime; infer_instance

/-- Strip an expected literal front from a string (the fixed ``[stdout] ``
part of the regex); return the rest on success. -/
def dropPre : Str → Str → Option Str
  | [], s => some s
  | _ :: _, [] => none
  | c :: cs, d :: ds => if c = d then dropPre cs ds else none

/-- `content.split('\n')`. -/
def splitOnNl : Str → List Str
  | [] => [[]]
  | c :: cs =>
    if c = '\n' then [] :: splitOnNl cs
    else
      match splitOnNl cs with
      | [] => [[c]]
      | s :: ss => (c :: s) :: ss

/-- JS whitespace as far as `.trim()` is concerned (the characters that can
occur in log content). -/
def jsWs (c : Char) : Bool :=
  decide (c = ' ' ∨ c = '\t' ∨ c = '\n' ∨ c = '\r')

/-- `line.trim()` is truthy, i.e. the line has some non-whitespace char. -/
def hasNonWs (l : Str) : Bool := l.any (fun c => ! jsWs c)

/-- `'stdout' | 'stderr'`. -/
inductive LogStream where
  | stdout
  | stderr
deriving DecidableEq, Repr

/-- The characters of the stream tag. -/
def streamTag : LogStream → Str
  | LogStream.stdout => ['s', 't', 'd', 'o', 'u', 't']
  | LogStream.stderr => ['s', 't', 'd', 'e', 'r', 'r']

/-- `interface LogLine { time, stream, data }`. -/
structure LogLine where
  time : Str
  stream : LogStream
  data : Str
deriving DecidableEq, Repr

/-- `formatLogLine`: `` `${line.time} [${line.stream}] ${line.data}` ``. -/
def formatLogLine (l : LogLine) : Str :=
  l.time ++ ' ' :: '[' :: (streamTag l.stream ++ ']' :: ' ' :: l.data)

/-- The `[(stdout|stderr)] (.*)$` tail of the log-line regex, applied after
the `` `<timestamp> ` `` prefix: `.` does not match a newline and `$` only
matches the very end, so a data part containing a newline fails. -/
def parseStreamRest (time rest2 : Str) : Option LogLine :=
  match dropPre (streamTag LogStream.stdout ++ [']', ' ']) rest2 with
  | some data =>
      if '\n' ∈ data then none
      else some { time := time, stream := LogStream.stdout, data := data }
  | none =>
    match dropPre (streamTag LogStream.stderr ++ [']', ' ']) rest2 with
    | some data =>
        if '\n' ∈ data then none
        else some { time := time, stream := LogStream.stderr, data := data }
    | none => none

/-- The `` ` \[` `` part of the log-line regex after the timestamp. -/
def parseAfterTime (time rest : Str) : Option LogLine :=
  match rest with
  | ' ' :: '[' :: rest2 => parseStreamRest time rest2
  | _ => none

/-- `parseLogLine`: the anchored regex match
`^(\d{4}-\d{2}-\d{2}T\d{2}:\d{2}:\d{2}\.\d{3}Z) \[(stdout|stderr)\] (.*)$`. -/
def parseLogLine (raw : Str) : Option LogLine :=
  match matchPat isoPat raw with
  | some (time, rest) => parseAfterTime time rest
  | none => none

/-- `readWorkerLogs`: split the durable file content on newlines, keep the
lines whose `trim()` is truthy, parse each, drop the `null`s. -/
def readWorkerLogs (content : Str) : List LogLine :=
  ((splitOnNl content).filter hasNonWs).filterMap parseLogLine

/-- In-memory per-worker state:
`{ currentFile?: string; status: 'running' | 'stopped' }`. -/
inductive WorkerRunStatus where
  | running
  | stopped
deriving DecidableEq, Repr

structure WorkerMem where
  currentFile : Option String := none
  status : WorkerRunStatus
deriving DecidableEq, Repr

/-- Set a key in an association list (JS `Map.set` / writing the file named
by the key). -/
def alSet {κ α : Type} [DecidableEq κ] (k : κ) (v : α) : List (κ × α) → List (κ × α)
  | [] => [(k, v)]
  | (k2, v2) :: rest => if k = k2 then (k, v) :: rest else (k2, v2) :: alSet k v rest

/-- Look up a key in an association list (JS `Map.get` / reading a file). -/
def alGet {κ α : Type} [DecidableEq κ] (k : κ) : List (κ × α) → Option α
  | [] => none
  | (k2, v) :: rest => if k2 = k then some v else alGet k rest

/-- The Log Sink state: the `workerStatus` map plus the durable
`logs/worker-<id>.log` files (content as a character list). -/
structure LogState where
  workerStatus : List (Nat × WorkerMem)
  files : List (Nat × Str)
deriving DecidableEq, Repr

/-- `initWorker(workerId)`: truncate the worker's log file, mark it running. -/
def initWorker (workerId : Nat) (st : LogState) : LogState :=
  { workerStatus := alSet workerId { status := WorkerRunStatus.running } st.workerStatus,
    files := alSet workerId [] st.files }

/-- `appendWorkerOutput(workerId, stream, data)`: appends one formatted line
plus `'\n'` to the durable log, but only when the worker is known
(`workerStatus.get(workerId)` truthy).  `time` is the `toISOString` clock
oracle.  `appendFileSync` creates the file when missing. -/
def appendWorkerOutput (workerId : Nat) (stream : LogStream) (data : Str) (time : Str)
    (st : LogState) : LogState :=
  match alGet workerId st.workerStatus with
  | some _ =>
      { st with
        files := alSet workerId
          (((alGet workerId st.files).getD []) ++
            formatLogLine { time := time, stream := stream, data := data } ++ ['\n'])
          st.files }
  | none => st

/-- `setWorkerFile(workerId, filePath)`. -/
def setWorkerFile (workerId : Nat) (filePath : String) (st : LogState) : LogState :=
  match alGet workerId st.workerStatus with
  | some m =>
      { st with workerStatus := alSet workerId { m with currentFile := some filePath } st.workerStatus }
  | none => st

/-- `stopWorker(workerId)`. -/
def stopWorker (workerId : Nat) (st : LogState) : LogState :=
  match alGet workerId st.workerStatus with
  | some m =>
      { st with
        workerStatus := alSet workerId
          { m with status := WorkerRunStatus.stopped, currentFile := none } st.workerStatus }
  | none => st

/-- `clearWorkers()`: wipe the in-memory map and delete every
`worker-*.log` file. -/
def clearWorkers (_st : LogState) : LogState :=
  { workerStatus := [], files := [] }

/-- One entry of the `getWorkerOutputs()` result map. -/
structure WorkerSnapshot where
  logs : List LogLine
  currentFile : Option String
  status : WorkerRunStatus
deriving DecidableEq, Repr

/-- `getWorkerOutputs()`: for every worker that has a durable log file,
its parsed line history plus the best-known in-memory state
(`workerStatus.get(workerId) || { status: 'stopped' }`). -/
def getWorkerOutputs (st : LogState) : List (Nat × WorkerSnapshot) :=
  st.files.map (fun p =>
    (p.1,
      match alGet p.1 st.workerStatus with
      | some m => { logs := readWorkerLogs p.2, currentFile := m.currentFile, status := m.status }
      | none => { logs := readWorkerLogs p.2, currentFile := none, status := WorkerRunStatus.stopped }))

/-- A process restart: the durable log files survive, the in-memory
`workerStatus` map does not. -/
def wipeMemory (st : LogState) : LogState := { st with workerStatus := [] }

/-- One `appendWorkerOutput` call of a history: its clock oracle value and
its two arguments. -/
structure AppendCall where
  time : Str
  stream : LogStream
  data : Str
deriving DecidableEq, Repr

/-- The log line an append call produces. -/
def AppendCall.toLine (c : AppendCall) : LogLine :=
  { time := c.time, stream := c.stream, data := c.data }

/-- Replay a sequence of `appendWorkerOutput` calls for one worker. -/
def appendAll (workerId : Nat) (calls : List AppendCall) (st : LogState) : LogState :=
  calls.foldl (fun s c => appendWorkerOutput workerId c.stream c.data c.time s) st

/-- The durable content a line history serialises to. -/
def logContent : List LogLine → Str
  | [] => []
  | l :: ls => formatLogLine l ++ '\n' :: logContent ls

example :
    readWorkerLogs (logContent
      [{ time := "2024-01-01T00:00:00.000Z".toList, stream := LogStream.stdout,
         data := "hello".toList }]) =
      [{ time := "2024-01-01T00:00:00.000Z".toList, stream := LogStream.stdout,
         data := "hello".toList }] := by
  decide

example :
    (readWorkerLogs (logContent
      [{ time := "2024-01-01T00:00:00.000Z".toList, stream := LogStream.stdout,
         data := "a\nb".toList }])).map LogLine.data = [['a']] := by
  decide

/-! ## Event bus (`events.server` section of src/app/lib/events.server.ts)

The `EventEmitter` delivers to in-memory subscribers only; the model records
the sequence of published `FileEvent`s. -/

inductive FileEventType where
  | status_change
  | job_update
  | check_complete
deriving DecidableEq, Repr

/-- `export type FileEvent = { type, jobId?, fileId?, mode?, status?,
errorMessage?, stats? }`. -/
structure FileEvent where
  type : FileEventType
  jobId : Option Nat := none
  fileId : Option Nat := none
  mode : Option CheckMode := none
  status : Option JobStatus := none
  errorMessage : Option String := none
  stats : Option JobStats := none
deriving DecidableEq, Repr

/-! ## Checker invocation outcome (src/unnamed/part_005, `runCommand` /
`checkFile`) -/

/-- What `runCommand` resolves with: `{ code: number | null; stdout; stderr }`. -/
structure CmdResult where
  code : Option Int
  stdout : String
  stderr : String
deriving DecidableEq, Repr

/-- What `checkFile` resolves with:
`{ success: boolean; error?: string; duration?: string }`. -/
structure CheckResult where
  success : Bool
  error : Option String := none
  duration : Option String := none
deriving DecidableEq, Repr

/-- JS template rendering of `result.code : number | null`. -/
def codeStr : Option Int → String
  | some n => toString n
  | none => "null"

/-- JS `String.prototype.trim()`: strip leading and trailing whitespace
(modelled over the character list of the string). -/
def jsTrim (s : String) : String :=
  String.mk (((s.data.dropWhile jsWs).reverse.dropWhile jsWs).reverse)

/-- The tail of `checkFile` (lines 132-140 of src/unnamed/part_005), after
the external `runCommand` invocations have produced `result` for the check
command and `duration` has been parsed: failure iff the exit code is
nonzero (or null) or trimmed stderr is nonempty, with
`error: result.stderr.trim() || \`${cmd} exited with code ${result.code}\``. -/
def checkFileDecision (cmd : String) (result : CmdResult) (duration : Option String) :
    CheckResult :=
  if result.code ≠ some 0 ∨ jsTrim result.stderr ≠ "" then
    { success := false,
      error := some (if jsTrim result.stderr = "" then
          cmd ++ " exited with code " ++ codeStr result.code
        else jsTrim result.stderr),
      duration := duration }
  else
    { success := true, duration := duration }

/-- The `CmdResult` that `runCommand`'s `proc.on('error', ...)` handler
resolves with when the external tool cannot be spawned. -/
def spawnFailureResult (cmd errMessage : String) : CmdResult :=
  { code := some 1, stdout := "", stderr := "Failed to spawn " ++ cmd ++ ": " ++ errMessage }

/-! ## Worker Pool Controller (src/unnamed/part_005)

The module-level mutable state (`runningModes`, `activeWorkersByMode`,
`workerIdCounter`, `checkStartTime`, `checkEndTime`) together with the Job
Store, the Log Sink and the published event list.  `runningModes` is a JS
`Set`; it is modelled as a duplicate-free list with `Set.add` as
append-if-absent and `Set.delete` as filter. -/

structure Ctrl where
  db : DB
  log : LogState
  running : List CheckMode
  activeWorkers : List (CheckMode × Nat)
  workerIdCounter : Nat
  checkStartTime : Option Nat
  checkEndTime : Option Nat
  events : List FileEvent
deriving DecidableEq, Repr

/-- `emitFileEvent`. -/
def emitFileEvent (e : FileEvent) (st : Ctrl) : Ctrl :=
  { st with events := st.events ++ [e] }

/-- JS `Set.add`. -/
def setAdd (m : CheckMode) (l : List CheckMode) : List CheckMode :=
  if m ∈ l then l else l ++ [m]

/-- JS `Set.delete`. -/
def setDelete (m : CheckMode) (l : List CheckMode) : List CheckMode :=
  l.filter (fun x => decide (x ≠ m))

/-- A worker suspended at `await checkFile(file, workerId, mode)`: the data
its continuation closes over. -/
structure Susp where
  wid : Nat
  mode : CheckMode
  job : JobRecord
  file : FileRecord
deriving DecidableEq, Repr

/-- The JS `const { job, file } = result` destructuring casts the SQL row to
`FileRecord` even when no row came back; the placeholder models that cast.
With the schema's foreign key the `none` case is unreachable. -/
def fileOrDefault (f : Option FileRecord) : FileRecord :=
  f.getD { id := 0, path := "", filename := "", duration := none, created_at := 0 }

/-- The worker's `finally` block (lines 199-215): decrement the mode's live
count (`get(mode) || 1`), stop the worker's log, and if the count reached
zero deactivate the mode; if no mode remains, record the end time and emit
`check_complete` with fresh stats. -/
def exitWorker (wid : Nat) (mode : CheckMode) (now : Nat) (st : Ctrl) : Ctrl :=
  let c0 : Nat :=
    match alGet mode st.activeWorkers with
    | some n => if n = 0 then 1 else n
    | none => 1
  let st := { st with activeWorkers := alSet mode (c0 - 1) st.activeWorkers,
                      log := stopWorker wid st.log }
  if (alGet mode st.activeWorkers).getD 0 = 0 then
    let st := { st with running := setDelete mode st.running }
    if st.running = [] then
      emitFileEvent { type := FileEventType.check_complete, stats := some (getJobStats st.db.jobs) }
        { st with checkEndTime := some now }
    else st
  else st

/-- One pass from the top of the worker's `while` loop (lines 149-165) up to
the next suspension point or loop exit: check the mode is still active,
claim a job, record the current file, publish the `processing` event, and
suspend at `await checkFile`; on a failed check or a drained queue, run the
`finally` block. -/
def workerLoopIter (wid : Nat) (mode : CheckMode) (now : Nat) (st : Ctrl) :
    Ctrl × Option Susp :=
  if mode ∈ st.running then
    match claimNextPendingJob mode st.db with
    | (some r, db2) =>
      let file := fileOrDefault r.file
      let st := { st with db := db2, log := setWorkerFile wid file.path st.log }
      let st := emitFileEvent
        { type := FileEventType.job_update, jobId := some r.job.id, fileId := some file.id,
          mode := some mode, status := some JobStatus.processing } st
      (st, some { wid := wid, mode := mode, job := r.job, file := file })
    | (none, db2) => (exitWorker wid mode now { st with db := db2 }, none)
  else (exitWorker wid mode now st, none)

/-- Resume a worker suspended at `await checkFile` with the external
checker's outcome (lines 167-197): if the mode was deactivated meanwhile,
break without persisting anything; otherwise cache the duration, persist
the job outcome, publish the event, and run the next loop pass. -/
def workerResume (s : Susp) (res : CheckResult) (now : Nat) (st : Ctrl) :
    Ctrl × Option Susp :=
  if s.mode ∈ st.running then
    let st :=
      if jsTruthy res.duration then
        { st with db := { st.db with
            files := updateFileDuration s.file.id (res.duration.getD "") st.db.files } }
      else st
    if res.success then
      let st := { st with db := { st.db with
        jobs := updateJobStatus s.job.id JobStatus.completed none res.duration now st.db.jobs } }
      let st := emitFileEvent
        { type := FileEventType.job_update, jobId := some s.job.id, fileId := some s.file.id,
          mode := some s.mode, status := some JobStatus.completed } st
      workerLoopIter s.wid s.mode now st
    else
      let st := { st with db := { st.db with
        jobs := updateJobStatus s.job.id JobStatus.error res.error res.duration now st.db.jobs } }
      let st := emitFileEvent
        { type := FileEventType.job_update, jobId := some s.job.id, fileId := some s.file.id,
          mode := some s.mode, status := some JobStatus.error, errorMessage := res.error } st
      workerLoopIter s.wid s.mode now st
  else (exitWorker s.wid s.mode now st, none)

/-- The state after the first two statements of `worker(workerId, mode)`
(lines 144-146): bump the mode's live count (`get(mode) || 0`) and
initialise the worker's log. -/
def startState (wid : Nat) (mode : CheckMode) (st : Ctrl) : Ctrl :=
  { st with
    activeWorkers := alSet mode ((alGet mode st.activeWorkers).getD 0 + 1) st.activeWorkers,
    log := initWorker wid st.log }

/-- The synchronous prefix of `worker(workerId, mode)` (lines 143-146 and
the first loop pass): bump the mode's live count, initialise the worker's
log, and run the loop to its first suspension point or exit. -/
def workerStart (wid : Nat) (mode : CheckMode) (now : Nat) (st : Ctrl) :
    Ctrl × Option Susp :=
  workerLoopIter wid mode now (startState wid mode st)

/-- The spawn loop of `startChecking` (lines 243-245):
`for (i = 0; i < concurrency; i++) worker(++workerIdCounter, mode)`.
Each call runs the worker's synchronous prefix; the workers that claimed a
job are left suspended. -/
def spawnWorkers (mode : CheckMode) (now : Nat) : Nat → Ctrl → Ctrl × List Susp
  | 0, st => (st, [])
  | Nat.succ n, st =>
    let wid := st.workerIdCounter + 1
    let st := { st with workerIdCounter := wid }
    let p := workerStart wid mode now st
    let q := spawnWorkers mode now n p.1
    (q.1, p.2.toList ++ q.2)

/-- `startChecking(mode, fileIds, concurrency)` (lines 218-248): reject if
the mode is already active or the batch is empty; otherwise create the
jobs, activate the mode, reset the shared epoch when this is the first
active mode, and spawn the workers. -/
def startChecking (mode : CheckMode) (fileIds : List Nat) (concurrency : Nat) (now : Nat)
    (st : Ctrl) : Bool × Ctrl × List Susp :=
  if mode ∈ st.running then (false, st, [])
  else if fileIds = [] then (false, st, [])
  else
    let st := { st with db := createJobs fileIds mode now st.db }
    let st := { st with running := setAdd mode st.running }
    let st :=
      if st.running.length = 1 then
        { st with checkStartTime := some now, checkEndTime := none,
                  log := clearWorkers st.log, workerIdCounter := 0 }
      else st
    let p := spawnWorkers mode now concurrency st
    (true, p.1, p.2)

/-- `stopChecking(mode?)` (lines 276-290): deactivate the mode (or all),
delete its pending/processing job rows, and always emit a fresh
`check_complete`. -/
def stopChecking (mode : Option CheckMode) (st : Ctrl) : Ctrl :=
  let st :=
    match mode with
    | some m =>
        { st with running := setDelete m st.running,
                  db := { st.db with
                    jobs := deletePendingAndProcessingJobs (some m) st.db.jobs } }
    | none =>
        { st with running := [],
                  db := { st.db with
                    jobs := deletePendingAndProcessingJobs none st.db.jobs } }
  emitFileEvent { type := FileEventType.check_complete, stats := some (getJobStats st.db.jobs) } st

/-! ## Claim sequences (for the no-double-claim property) -/

/-- Run a sequence of `claimNextPendingJob` calls (one per listed mode) and
record, for each call that returned a row, the call's mode, the database
the call saw, and its result. -/
def claimSeqT : List CheckMode → DB → List (CheckMode × DB × ClaimResult) × DB
  | [], db => ([], db)
  | m :: ms, db =>
    match claimNextPendingJob m db with
    | (some r, db2) =>
      let p := claimSeqT ms db2
      ((m, db, r) :: p.1, p.2)
    | (none, db2) => claimSeqT ms db2

/-! ## Concrete scenarios -/

/-- An idle controller over an empty store. -/
def emptyCtrl : Ctrl :=
  { db := { files := [], jobs := [], nextJobId := 1 },
    log := { workerStatus := [], files := [] },
    running := [], activeWorkers := [], workerIdCounter := 0,
    checkStartTime := none, checkEndTime := none, events := [] }

/-- Three scanned files; file 2 is the one whose full-decode check fails. -/
def scenarioFiles : List FileRecord :=
  [{ id := 1, path := "a.mkv", filename := "a.mkv", duration := none, created_at := 0 },
   { id := 2, path := "b.mkv", filename := "b.mkv", duration := none, created_at := 0 },
   { id := 3, path := "c.mkv", filename := "c.mkv", duration := none, created_at := 0 }]

/-- The external checker oracle for the end-to-end scenario: the invocation
for file 2 fails, the others succeed. -/
def scenarioOutcome (fileId : Nat) : CheckResult :=
  if fileId = 2 then { success := false, error := some "frame decode error" }
  else { success := true }

/-- The end-to-end run of spec.md §8: batch of 3 files in `full` mode at
concurrency 2, driven to completion.  Worker 1 claims job 1 and suspends;
worker 2 claims job 2 and suspends; worker 1 resumes (persists job 1,
claims job 3, suspends); worker 2 resumes (persists job 2's failure, finds
no pending job, exits); worker 1 resumes (persists job 3, finds no pending
job, exits last). -/
def scenarioFinal : Ctrl :=
  let st0 : Ctrl := { emptyCtrl with db := { emptyCtrl.db with files := scenarioFiles } }
  let p := startChecking CheckMode.full [1, 2, 3] 2 0 st0
  match p.2.2 with
  | [s1, s2] =>
    let r1 := workerResume s1 (scenarioOutcome s1.file.id) 1 p.2.1
    match r1.2 with
    | some s3 =>
      let r2 := workerResume s2 (scenarioOutcome s2.file.id) 2 r1.1
      let r3 := workerResume s3 (scenarioOutcome s3.file.id) 3 r2.1
      r3.1
    | none => r1.1
  | _ => p.2.1

example : scenarioFinal.running = [] := by decide

example :
    getJobStats scenarioFinal.db.jobs =
      { total := 3, pending := some 0, processing := some 0,
        completed := some 2, error := some 1 } := by
  decide

example :
    scenarioFinal.events.countP (fun e => decide (e.type = FileEventType.check_complete)) = 1 := by
  decide

example : scenarioFinal.checkEndTime = some 3 := by decide

/-- The `getJobStats` scenario of spec.md §8: 5 pending jobs seeded, 2
completed and 1 failed. -/
def statsScenarioJobs : List JobRecord :=
  let db := createJobs [1, 2, 3, 4, 5] CheckMode.quick 0
    { files := [], jobs := [], nextJobId := 1 }
  let jobs := updateJobStatus 1 JobStatus.completed none none 1 db.jobs
  let jobs := updateJobStatus 2 JobStatus.completed none none 2 jobs
  updateJobStatus 3 JobStatus.error (some "boom") none 3 jobs

example :
    getJobStats statsScenarioJobs =
      { total := 5, pending := some 2, processing := some 0,
        completed := some 2, error := some 1 } := by
  decide

/-! ## Association-list lemmas -/

theorem alGet_alSet_self {κ α : Type} [DecidableEq κ] (k : κ) (v : α) (l : List (κ × α)) :
    alGet k (alSet k v l) = some v := by
  induction l with
  | nil => simp [alSet, alGet]
  | cons p rest ih =>
    obtain ⟨k2, v2⟩ := p
    by_cases h : k = k2
    · subst h
      simp [alSet, alGet]
    · have h2 : ¬ k2 = k := fun hh => h hh.symm
      simp [alSet, alGet, h, h2, ih]

theorem alGet_alSet_ne {κ α : Type} [DecidableEq κ] (k k2 : κ) (v : α) (l : List (κ × α))
    (h : k2 ≠ k) : alGet k2 (alSet k v l) = alGet k2 l := by
  have hne : ¬ k = k2 := fun hh => h hh.symm
  induction l with
  | nil => simp [alSet, alGet, hne]
  | cons p rest ih =>
    obtain ⟨k3, v3⟩ := p
    by_cases hk : k = k3
    · subst hk
      simp [alSet, alGet, hne]
    · by_cases h3 : k3 = k2
      · simp [alSet, alGet, hne, hk, h3]
      · simp [alSet, alGet, hk, h3, ih]

theorem alGet_map {κ α β : Type} [DecidableEq κ] (g : κ → α → β) (k : κ) (l : List (κ × α)) :
    alGet k (l.map (fun p => (p.1, g p.1 p.2))) = (alGet k l).map (g k) := by
  induction l with
  | nil => simp [alGet]
  | cons p rest ih =>
    obtain ⟨k2, v2⟩ := p
    by_cases h : k2 = k
    · subst h
      simp [alGet]
    · simpa [alGet, h] using ih

/-! ## Claim characterisation lemmas -/

/-- Specification of a successful `claimNextPendingJob` call: some `pending`
row of the requested mode was selected, returned with status `processing`,
and exactly the rows carrying its id were flipped to `processing`. -/
theorem claim_some_spec {mode : CheckMode} {db : DB} {r : ClaimResult} {db2 : DB}
    (h : claimNextPendingJob mode db = (some r, db2)) :
    ∃ j0 ∈ db.jobs, j0.status = JobStatus.pending ∧ j0.mode = mode ∧
      r.job = { j0 with status := JobStatus.processing } ∧
      db2.files = db.files ∧ db2.nextJobId = db.nextJobId ∧
      db2.jobs = db.jobs.map (fun x =>
        if x.id = j0.id then { x with status := JobStatus.processing } else x) := by
  unfold claimNextPendingJob at h
  cases hfind : db.jobs.find? (fun j => decide (j.mode = mode ∧ j.status = JobStatus.pending)) with
  | none => rw [hfind] at h; simp at h
  | some j0 =>
    rw [hfind] at h
    have hmem := List.mem_of_find?_eq_some hfind
    have hpred := List.find?_some hfind
    simp only [decide_eq_true_eq] at hpred
    rw [Prod.mk.injEq] at h
    obtain ⟨h1, h2⟩ := h
    have hr := Option.some.inj h1
    subst hr
    subst h2
    exact ⟨j0, hmem, hpred.2, hpred.1, rfl, rfl, rfl, rfl⟩

/-- A call that returns no row leaves the database untouched. -/
theorem claim_none_db {mode : CheckMode} {db : DB}
    (h : (claimNextPendingJob mode db).1 = none) : (claimNextPendingJob mode db).2 = db := by
  unfold claimNextPendingJob at h ⊢
  cases hfind : db.jobs.find? (fun j => decide (j.mode = mode ∧ j.status = JobStatus.pending)) with
  | none => rfl
  | some j0 => rw [hfind] at h; simp at h

/-- A call returns no row exactly when no pending job of the mode exists. -/
theorem claim_none_iff {mode : CheckMode} {db : DB} :
    (claimNextPendingJob mode db).1 = none ↔
      ∀ j ∈ db.jobs, ¬ (j.mode = mode ∧ j.status = JobStatus.pending) := by
  unfold claimNextPendingJob
  cases hfind : db.jobs.find? (fun j => decide (j.mode = mode ∧ j.status = JobStatus.pending)) with
  | none =>
    constructor
    · intro _ j hj hcontra
      have := List.find?_eq_none.mp hfind j hj
      simp [hcontra.1, hcontra.2] at this
    · intro _
      rfl
  | some j0 =>
    constructor
    · intro hx
      simp at hx
    · intro hall
      have hmem := List.mem_of_find?_eq_some hfind
      have hpred := List.find?_some hfind
      simp only [decide_eq_true_eq] at hpred
      exact absurd ⟨hpred.1, hpred.2⟩ (hall j0 hmem)

/-- When some pending job of the mode exists, a claim call returns a row. -/
theorem claim_some_of_pending {mode : CheckMode} {db : DB}
    (h : ∃ j ∈ db.jobs, j.mode = mode ∧ j.status = JobStatus.pending) :
    ∃ r, (claimNextPendingJob mode db).1 = some r := by
  cases hc : (claimNextPendingJob mode db).1 with
  | some r => exact ⟨r, rfl⟩
  | none =>
    obtain ⟨j, hj, hmode, hstatus⟩ := h
    exact absurd ⟨hmode, hstatus⟩ (claim_none_iff.mp hc j hj)

/-! ## Frame lemmas for the worker loop -/

/-- The worker's `finally` block never touches the Job Store, the file
records, the epoch start time, the worker-id counter or the durable logs. -/
theorem exitWorker_frame (wid : Nat) (mode : CheckMode) (now : Nat) (st : Ctrl) :
    (exitWorker wid mode now st).db = st.db ∧
    (exitWorker wid mode now st).checkStartTime = st.checkStartTime ∧
    (exitWorker wid mode now st).workerIdCounter = st.workerIdCounter ∧
    (exitWorker wid mode now st).log.files = st.log.files := by
  unfold exitWorker emitFileEvent stopWorker
  cases alGet wid st.log.workerStatus <;>
    dsimp only <;> (repeat' split) <;> exact ⟨rfl, rfl, rfl, rfl⟩

/-- A worker exiting while its mode still has at least one other live
worker (count at least 2 before the decrement) deactivates nothing. -/
theorem exitWorker_not_last (wid : Nat) (mode : CheckMode) (now : Nat) (st : Ctrl) (n : Nat)
    (hw : alGet mode st.activeWorkers = some n) (hn : 2 ≤ n) :
    (exitWorker wid mode now st).running = st.running ∧
    (exitWorker wid mode now st).checkEndTime = st.checkEndTime ∧
    (exitWorker wid mode now st).events = st.events ∧
    alGet mode (exitWorker wid mode now st).activeWorkers = some (n - 1) := by
  have hn0 : ¬ n = 0 := by omega
  have hm1 : ¬ n - 1 = 0 := by omega
  have hget := alGet_alSet_self mode (n - 1) st.activeWorkers
  unfold exitWorker
  rw [hw]
  dsimp only
  rw [if_neg hn0, hget]
  dsimp only [Option.getD]
  rw [if_neg hm1]
  exact ⟨rfl, rfl, rfl, hget⟩

/-! ## updateJobStatus row lemmas -/

/-- A terminal `updateJobStatus` leaves every row whose id matches with the
terminal status and the coerced message/duration. -/
theorem updateJobStatus_terminal_rows {jobs : List JobRecord} {jid : Nat} {status : JobStatus}
    {em dur : Option String} {now : Nat}
    (hterm : status = JobStatus.completed ∨ status = JobStatus.error) :
    ∀ j ∈ updateJobStatus jid status em dur now jobs, j.id = jid →
      j.status = status ∧ j.error_message = jsFalsyToNull em ∧
      j.duration = jsFalsyToNull dur ∧ j.completed_at = some now := by
  intro j hj hid
  unfold updateJobStatus at hj
  rw [if_pos hterm] at hj
  obtain ⟨x, hx, hfx⟩ := List.mem_map.mp hj
  by_cases hxid : x.id = jid
  · rw [if_pos hxid] at hfx
    subst hfx
    exact ⟨rfl, rfl, rfl, rfl⟩
  · rw [if_neg hxid] at hfx
    subst hfx
    exact absurd hid hxid

/-- Any `updateJobStatus` leaves rows with a different id untouched. -/
theorem updateJobStatus_other_rows {jobs : List JobRecord} {jid : Nat} {status : JobStatus}
    {em dur : Option String} {now : Nat} :
    ∀ j ∈ updateJobStatus jid status em dur now jobs, j.id = jid ∨ j ∈ jobs := by
  intro j hj
  unfold updateJobStatus at hj
  split at hj <;>
  · obtain ⟨x, hx, hfx⟩ := List.mem_map.mp hj
    by_cases hxid : x.id = jid
    · rw [if_pos hxid] at hfx
      subst hfx
      exact Or.inl hxid
    · rw [if_neg hxid] at hfx
      subst hfx
      exact Or.inr hx

/-- An `updateJobStatus` aimed at an id that no row carries is a no-op
(the SQL UPDATE matches zero rows). -/
theorem updateJobStatus_absent_id {jobs : List JobRecord} {jid : Nat} {status : JobStatus}
    {em dur : Option String} {now : Nat}
    (h : ∀ j ∈ jobs, j.id ≠ jid) :
    updateJobStatus jid status em dur now jobs = jobs := by
  unfold updateJobStatus
  split <;>
  · refine Eq.trans (List.map_congr_left ?_) (List.map_id _)
    intro x hx
    simp [h x hx]

/-! ## No-double-claim invariant -/

/-- No job row carrying the given id is still `pending`. -/
def NoPendingId (x : Nat) (db : DB) : Prop :=
  ∀ j ∈ db.jobs, j.id = x → j.status ≠ JobStatus.pending

/-- A claim call preserves `NoPendingId` for every id (it only turns
`pending` rows into `processing` ones). -/
theorem claim_preserves_noPendingId {mode : CheckMode} {db : DB} (x : Nat)
    (h : NoPendingId x db) : NoPendingId x (claimNextPendingJob mode db).2 := by
  cases hc : (claimNextPendingJob mode db).1 with
  | none =>
    rw [claim_none_db hc]
    exact h
  | some r =>
    have heq : claimNextPendingJob mode db = (some r, (claimNextPendingJob mode db).2) := by
      rw [← hc]
    obtain ⟨j0, hj0, hpend, hmode, hjob, hfiles, hnext, hjobs⟩ := claim_some_spec heq
    intro j hj hid
    rw [hjobs] at hj
    obtain ⟨y, hy, hfy⟩ := List.mem_map.mp hj
    by_cases hyid : y.id = j0.id
    · rw [if_pos hyid] at hfy
      subst hfy
      simp
    · rw [if_neg hyid] at hfy
      subst hfy
      exact h y hy hid

/-- After a successful claim, the claimed id has no `pending` row left. -/
theorem claim_gives_noPendingId {mode : CheckMode} {db : DB} {r : ClaimResult} {db2 : DB}
    (h : claimNextPendingJob mode db = (some r, db2)) : NoPendingId r.job.id db2 := by
  obtain ⟨j0, hj0, hpend, hmode, hjob, hfiles, hnext, hjobs⟩ := claim_some_spec h
  have hid : r.job.id = j0.id := by rw [hjob]
  intro j hj hjid
  rw [hjobs] at hj
  obtain ⟨y, hy, hfy⟩ := List.mem_map.mp hj
  by_cases hyid : y.id = j0.id
  · rw [if_pos hyid] at hfy
    subst hfy
    simp
  · rw [if_neg hyid] at hfy
    subst hfy
    exact absurd (hjid.trans hid) hyid

/-- An id with no `pending` row is never returned by any later claim
sequence. -/
theorem claimSeqT_not_returned (modes : List CheckMode) (db : DB) (x : Nat)
    (h : NoPendingId x db) :
    x ∉ (claimSeqT modes db).1.map (fun t => t.2.2.job.id) := by
  induction modes generalizing db with
  | nil => simp [claimSeqT]
  | cons m ms ih =>
    unfold claimSeqT
    cases hc : claimNextPendingJob m db with
    | mk fst snd =>
      cases fst with
      | none =>
        have hsnd : snd = db := by
          have := @claim_none_db m db (by rw [hc])
          rw [hc] at this
          exact this
        subst hsnd
        exact ih snd h
      | some r =>
        obtain ⟨j0, hj0, hpend, hmode, hjob, _, _, _⟩ := claim_some_spec hc
        have hid : r.job.id = j0.id := by rw [hjob]
        have hx : x ≠ r.job.id := by
          intro hxx
          exact h j0 hj0 (by omega) hpend
        have hpres : NoPendingId x snd := by
          have := @claim_preserves_noPendingId m db x h
          rw [hc] at this
          exact this
        simp only [List.map_cons, List.mem_cons]
        rintro (hbad | hbad)
        · exact hx hbad
        · exact ih snd hpres hbad

/-- No claim call of a sequence ever returns an id twice. -/
theorem claimSeqT_nodup (modes : List CheckMode) (db : DB) :
    ((claimSeqT modes db).1.map (fun t => t.2.2.job.id)).Nodup := by
  induction modes generalizing db with
  | nil => simp [claimSeqT]
  | cons m ms ih =>
    unfold claimSeqT
    cases hc : claimNextPendingJob m db with
    | mk ores db2 =>
      cases ores with
      | none => exact ih db2
      | some r =>
        have hnp := claim_gives_noPendingId hc
        have hnot := claimSeqT_not_returned ms db2 r.job.id hnp
        exact List.nodup_cons.mpr ⟨hnot, ih db2⟩

/-- Every returned row of a claim sequence was a pending row of the call's
mode in the database that call saw, and is returned as `processing`. -/
theorem claimSeqT_sound (modes : List CheckMode) (db : DB) :
    ∀ t ∈ (claimSeqT modes db).1,
      t.2.2.job.status = JobStatus.processing ∧ t.2.2.job.mode = t.1 ∧
      ∃ j0 ∈ t.2.1.jobs, j0.status = JobStatus.pending ∧ j0.mode = t.1 ∧
        t.2.2.job = { j0 with status := JobStatus.processing } := by
  induction modes generalizing db with
  | nil => simp [claimSeqT]
  | cons m ms ih =>
    intro t ht
    unfold claimSeqT at ht
    cases hc : claimNextPendingJob m db with
    | mk ores db2 =>
      rw [hc] at ht
      cases ores with
      | none => exact ih db2 t ht
      | some r =>
        dsimp only at ht
        rcases List.mem_cons.mp ht with rfl | ht2
        · obtain ⟨j0, hj0, hpend, hmode, hjob, _, _, _⟩ := claim_some_spec hc
          refine ⟨?_, ?_, j0, hj0, hpend, hmode, hjob⟩
          · rw [hjob]
          · rw [hjob]
            exact hmode
        · exact ih db2 t ht2

/-! ## Job stats partition -/

/-- The four statuses partition the rows: the total row count is the sum of
the four per-status counts. -/
theorem length_eq_statusCounts (jobs : List JobRecord) :
    jobs.length =
      jobs.countP (fun j => decide (j.status = JobStatus.pending)) +
      jobs.countP (fun j => decide (j.status = JobStatus.processing)) +
      jobs.countP (fun j => decide (j.status = JobStatus.completed)) +
      jobs.countP (fun j => decide (j.status = JobStatus.error)) := by
  induction jobs with
  | nil => rfl
  | cons j rest ih =>
    cases h : j.status <;>
      simp [List.countP_cons, h, ih] <;> omega

/-! ## Log line round-trip lemmas -/

/-- A string that matches a fixed pattern exactly still matches it, with
the leftover, when extended. -/
theorem matchPat_extend (pat : List Tok) (t r : Str) (h : matchPat pat t = some (t, [])) :
    matchPat pat (t ++ r) = some (t, r) := by
  induction pat generalizing t with
  | nil =>
    unfold matchPat at h
    have ht : t = [] := by
      have := (Option.some.inj h)
      exact (Prod.mk.injEq _ _ _ _ ▸ this).1.symm
    subst ht
    rfl
  | cons p ps ih =>
    cases t with
    | nil => simp [matchPat] at h
    | cons c cs =>
      unfold matchPat at h
      by_cases hok : tokOk p c
      · rw [if_pos hok] at h
        cases hrec : matchPat ps cs with
        | none => rw [hrec] at h; simp at h
        | some q =>
          rw [hrec] at h
          obtain ⟨m, rest⟩ := q
          simp only [Option.map_some'] at h
          have h1 := Option.some.inj h
          have hm : m = cs := by
            have := (Prod.mk.injEq _ _ _ _ ▸ h1).1
            exact (List.cons.injEq _ _ _ _ ▸ this).2
          have hrest : rest = [] := (Prod.mk.injEq _ _ _ _ ▸ h1).2
          rw [hm, hrest] at hrec
          have hext := ih cs hrec
          show matchPat (p :: ps) (c :: (cs ++ r)) = some (c :: cs, r)
          unfold matchPat
          rw [if_pos hok, hext]
          rfl
      · rw [if_neg hok] at h
        simp at h

/-- Every character consumed by a pattern match satisfies some token of the
pattern. -/
theorem matchPat_chars (pat : List Tok) (s m r : Str) (h : matchPat pat s = some (m, r)) :
    ∀ c ∈ m, ∃ t ∈ pat, tokOk t c = true := by
  induction pat generalizing s m r with
  | nil =>
    unfold matchPat at h
    have hm : m = [] := by
      have h1 := Option.some.inj h
      exact ((Prod.mk.injEq _ _ _ _ ▸ h1).1).symm
    subst hm
    intro c hc
    simp at hc
  | cons p ps ih =>
    cases s with
    | nil => simp [matchPat] at h
    | cons c0 cs =>
      unfold matchPat at h
      by_cases hok : tokOk p c0
      · rw [if_pos hok] at h
        cases hrec : matchPat ps cs with
        | none => rw [hrec] at h; simp at h
        | some q =>
          rw [hrec] at h
          obtain ⟨m2, rest2⟩ := q
          simp only [Option.map_some'] at h
          have h1 := Option.some.inj h
          have hm : m = c0 :: m2 := ((Prod.mk.injEq _ _ _ _ ▸ h1).1).symm
          subst hm
          intro c hc
          rcases List.mem_cons.mp hc with rfl | hc2
          · exact ⟨p, List.mem_cons_self _ _, hok⟩
          · obtain ⟨t, ht, htok⟩ := ih cs m2 rest2 hrec c hc2
            exact ⟨t, List.mem_cons_of_mem _ ht, htok⟩
      · rw [if_neg hok] at h
        simp at h

/-- An ISO-formatted timestamp contains no newline. -/
theorem isIsoTime_no_nl {t : Str} (h : isIsoTime t) : '\n' ∉ t := by
  intro hmem
  obtain ⟨tok, htok, hok⟩ := matchPat_chars isoPat t t [] h '\n' hmem
  have : ∀ tk ∈ isoPat, tokOk tk '\n' = false := by decide
  rw [this tok htok] at hok
  exact Bool.false_ne_true hok

/-- An ISO-formatted timestamp starts with a digit. -/
theorem isIsoTime_head_digit {t : Str} (h : isIsoTime t) :
    ∃ c cs, t = c :: cs ∧ c.isDigit = true := by
  cases t with
  | nil => simp [isIsoTime, isoPat, matchPat] at h
  | cons c cs =>
    refine ⟨c, cs, rfl, ?_⟩
    unfold isIsoTime isoPat matchPat at h
    by_cases hok : tokOk Tok.digit c
    · exact hok
    · rw [if_neg hok] at h
      simp at h

/-- Dropping a literal front succeeds on exactly that front. -/
theorem dropPre_append (x s : Str) : dropPre x (x ++ s) = some s := by
  induction x with
  | nil => rfl
  | cons c cs ih => simp [dropPre, ih]

/-- A formatted log line parses back to the line, provided the timestamp is
ISO-formatted and the data contains no newline. -/
theorem parseLogLine_formatLogLine (l : LogLine) (ht : isIsoTime l.time)
    (hd : '\n' ∉ l.data) : parseLogLine (formatLogLine l) = some l := by
  obtain ⟨time, stream, data⟩ := l
  simp only at ht hd
  cases stream with
  | stdout =>
    have h1 := matchPat_extend isoPat time
      (' ' :: '[' :: (streamTag LogStream.stdout ++ ']' :: ' ' :: data)) ht
    have h2 : dropPre (streamTag LogStream.stdout ++ [']', ' '])
        (streamTag LogStream.stdout ++ ']' :: ' ' :: data) = some data := by
      have he : streamTag LogStream.stdout ++ ']' :: ' ' :: data =
          (streamTag LogStream.stdout ++ [']', ' ']) ++ data := by
        simp
      rw [he]
      exact dropPre_append _ _
    unfold parseLogLine formatLogLine
    rw [h1]
    show parseStreamRest time (streamTag LogStream.stdout ++ ']' :: ' ' :: data) =
      some { time := time, stream := LogStream.stdout, data := data }
    unfold parseStreamRest
    rw [h2]
    exact if_neg hd
  | stderr =>
    have h1 := matchPat_extend isoPat time
      (' ' :: '[' :: (streamTag LogStream.stderr ++ ']' :: ' ' :: data)) ht
    have h2 : dropPre (streamTag LogStream.stdout ++ [']', ' '])
        (streamTag LogStream.stderr ++ ']' :: ' ' :: data) = none := by
      simp [streamTag, dropPre]
    have h3 : dropPre (streamTag LogStream.stderr ++ [']', ' '])
        (streamTag LogStream.stderr ++ ']' :: ' ' :: data) = some data := by
      have he : streamTag LogStream.stderr ++ ']' :: ' ' :: data =
          (streamTag LogStream.stderr ++ [']', ' ']) ++ data := by
        simp
      rw [he]
      exact dropPre_append _ _
    unfold parseLogLine formatLogLine
    rw [h1]
    show parseStreamRest time (streamTag LogStream.stderr ++ ']' :: ' ' :: data) =
      some { time := time, stream := LogStream.stderr, data := data }
    unfold parseStreamRest
    rw [h2, h3]
    exact if_neg hd

/-- Splitting on newlines takes off a newline-free first line. -/
theorem splitOnNl_append (line rest : Str) (h : '\n' ∉ line) :
    splitOnNl (line ++ '\n' :: rest) = line :: splitOnNl rest := by
  induction line with
  | nil => simp [splitOnNl]
  | cons c cs ih =>
    have hc : ¬ c = '\n' := fun hcc => h (hcc ▸ List.mem_cons_self c cs)
    have hcs : '\n' ∉ cs := fun hmem => h (List.mem_cons_of_mem c hmem)
    simp [splitOnNl, hc, ih hcs]

/-- A digit is not JS whitespace. -/
theorem digit_not_jsWs (c : Char) (h : c.isDigit = true) : jsWs c = false := by
  unfold jsWs
  rw [decide_eq_false_iff_not]
  rintro (rfl | rfl | rfl | rfl) <;> exact absurd h (by decide)

/-- A formatted log line contains no newline when its data does not and its
timestamp is ISO-formatted. -/
theorem formatLogLine_no_nl (l : LogLine) (ht : isIsoTime l.time) (hd : '\n' ∉ l.data) :
    '\n' ∉ formatLogLine l := by
  have htag : '\n' ∉ streamTag l.stream := by
    cases l.stream <;> decide
  have htime := isIsoTime_no_nl ht
  unfold formatLogLine
  intro hmem
  rcases List.mem_append.mp hmem with hmem | hmem
  · exact htime hmem
  · rcases List.mem_cons.mp hmem with hc | hmem
    · exact absurd hc (by decide)
    rcases List.mem_cons.mp hmem with hc | hmem
    · exact absurd hc (by decide)
    rcases List.mem_append.mp hmem with hmem | hmem
    · exact htag hmem
    rcases List.mem_cons.mp hmem with hc | hmem
    · exact absurd hc (by decide)
    rcases List.mem_cons.mp hmem with hc | hmem
    · exact absurd hc (by decide)
    · exact hd hmem

/-- A formatted log line passes the `.trim()` truthiness filter (it starts
with a digit of the timestamp). -/
theorem formatLogLine_hasNonWs (l : LogLine) (ht : isIsoTime l.time) :
    hasNonWs (formatLogLine l) = true := by
  obtain ⟨c, cs, htime, hdig⟩ := isIsoTime_head_digit ht
  unfold formatLogLine hasNonWs
  rw [htime]
  show ((c :: cs) ++ _).any _ = true
  rw [List.cons_append, List.any_cons]
  rw [digit_not_jsWs c hdig]
  rfl

/-- The full Log Sink round trip at the content level: serialising a line
history and re-reading it reproduces the history, provided every line has
an ISO timestamp and newline-free data. -/
theorem readWorkerLogs_logContent (lines : List LogLine)
    (h : ∀ l ∈ lines, isIsoTime l.time ∧ '\n' ∉ l.data) :
    readWorkerLogs (logContent lines) = lines := by
  induction lines with
  | nil => rfl
  | cons l ls ih =>
    obtain ⟨ht, hd⟩ := h l (List.mem_cons_self l ls)
    have hrest : ∀ x ∈ ls, isIsoTime x.time ∧ '\n' ∉ x.data :=
      fun x hx => h x (List.mem_cons_of_mem l hx)
    unfold readWorkerLogs logContent
    rw [splitOnNl_append _ _ (formatLogLine_no_nl l ht hd)]
    rw [List.filter_cons]
    rw [formatLogLine_hasNonWs l ht]
    simp only [if_pos]
    rw [List.filterMap_cons]
    rw [parseLogLine_formatLogLine l ht hd]
    have := ih hrest
    unfold readWorkerLogs at this
    rw [this]

/-- Replaying a history of `appendWorkerOutput` calls extends the worker's
durable log content by the serialised history and leaves the in-memory
entry alone. -/
theorem appendAll_content (wid : Nat) (calls : List AppendCall) (st : LogState)
    (m : WorkerMem) (content : Str)
    (hmem : alGet wid st.workerStatus = some m)
    (hfile : alGet wid st.files = some content) :
    alGet wid (appendAll wid calls st).files =
      some (content ++ logContent (calls.map AppendCall.toLine)) ∧
    alGet wid (appendAll wid calls st).workerStatus = some m := by
  induction calls generalizing st content with
  | nil =>
    simp only [appendAll, List.foldl_nil, List.map_nil, logContent, List.append_nil]
    exact ⟨hfile, hmem⟩
  | cons c cs ih =>
    show alGet wid (appendAll wid cs (appendWorkerOutput wid c.stream c.data c.time st)).files =
        _ ∧ alGet wid (appendAll wid cs (appendWorkerOutput wid c.stream c.data c.time st)).workerStatus = _
    have hstep : appendWorkerOutput wid c.stream c.data c.time st =
        { st with files := alSet wid (content ++ formatLogLine c.toLine ++ ['\n']) st.files } := by
      unfold appendWorkerOutput
      rw [hmem, hfile]
      rfl
    rw [hstep]
    have hfile2 : alGet wid (alSet wid (content ++ formatLogLine c.toLine ++ ['\n']) st.files) =
        some (content ++ formatLogLine c.toLine ++ ['\n']) :=
      alGet_alSet_self _ _ _
    obtain ⟨hf, hm⟩ := ih
      { st with files := alSet wid (content ++ formatLogLine c.toLine ++ ['\n']) st.files }
      (content ++ formatLogLine c.toLine ++ ['\n']) hmem hfile2
    refine ⟨?_, hm⟩
    rw [hf]
    simp [logContent, List.append_assoc]

/-- `stopWorker` never touches the durable log files. -/
theorem stopWorker_files (wid : Nat) (l : LogState) : (stopWorker wid l).files = l.files := by
  unfold stopWorker
  cases alGet wid l.workerStatus <;> rfl

/-- `setWorkerFile` never touches the durable log files. -/
theorem setWorkerFile_files (wid : Nat) (p : String) (l : LogState) :
    (setWorkerFile wid p l).files = l.files := by
  unfold setWorkerFile
  cases alGet wid l.workerStatus <;> rfl

/-- After a restart (in-memory state wiped), `getWorkerOutputs` rebuilds a
worker's entry from its durable log alone, with status defaulted to
`stopped`. -/
theorem getWorkerOutputs_wiped (st : LogState) (wid : Nat) (content : Str)
    (hfile : alGet wid st.files = some content) :
    alGet wid (getWorkerOutputs (wipeMemory st)) =
      some { logs := readWorkerLogs content, currentFile := none,
             status := WorkerRunStatus.stopped } := by
  unfold getWorkerOutputs wipeMemory
  have hmap : st.files.map (fun p =>
      (p.1,
        match alGet p.1 ([] : List (Nat × WorkerMem)) with
        | some m => { logs := readWorkerLogs p.2, currentFile := m.currentFile, status := m.status }
        | none => { logs := readWorkerLogs p.2, currentFile := none,
                    status := WorkerRunStatus.stopped })) =
      st.files.map (fun p => (p.1,
        ({ logs := readWorkerLogs p.2, currentFile := none,
           status := WorkerRunStatus.stopped } : WorkerSnapshot))) := by
    refine List.map_congr_left ?_
    intro p _
    rfl
  rw [hmap]
  rw [alGet_map (fun _ content2 =>
    ({ logs := readWorkerLogs content2, currentFile := none,
       status := WorkerRunStatus.stopped } : WorkerSnapshot)) wid st.files]
  rw [hfile]
  rfl

/-! ## Worker spawn lemmas -/

/-- The `createJobs` fold only ever adds rows. -/
theorem createJobs_foldl_superset (mode : CheckMode) (now : Nat) :
    ∀ (fids : List Nat) (db : DB) (j : JobRecord), j ∈ db.jobs →
      j ∈ (fids.foldl
        (fun d fid =>
          { d with
            jobs := d.jobs ++
              [{ id := d.nextJobId, file_id := fid, mode := mode, status := JobStatus.pending,
                 error_message := none, duration := none, created_at := now,
                 completed_at := none }],
            nextJobId := d.nextJobId + 1 })
        db).jobs := by
  intro fids
  induction fids with
  | nil => intro db j hj; exact hj
  | cons f fs ih =>
    intro db j hj
    exact ih _ j (List.mem_append_left _ hj)

/-- A nonempty batch leaves at least one `pending` job of the mode. -/
theorem createJobs_pending (fids : List Nat) (mode : CheckMode) (now : Nat) (db : DB)
    (h : fids ≠ []) :
    ∃ j ∈ (createJobs fids mode now db).jobs, j.mode = mode ∧ j.status = JobStatus.pending := by
  cases fids with
  | nil => exact absurd rfl h
  | cons f fs =>
    unfold createJobs
    rw [if_neg (by simp)]
    refine ⟨{ id := db.nextJobId, file_id := f, mode := mode, status := JobStatus.pending,
              error_message := none, duration := none, created_at := now,
              completed_at := none }, ?_, rfl, rfl⟩
    rw [List.foldl_cons]
    exact createJobs_foldl_superset mode now fs _ _
      (List.mem_append_right _ (List.mem_singleton.mpr rfl))

/-- Effect of one loop pass under the spawn-time invariant: with the mode
active, a positive live count, and either another live worker counted or a
pending job available, the pass deactivates nothing, leaves the timing and
the counter and the durable logs alone, and keeps the live count positive. -/
theorem workerLoopIter_effect (wid : Nat) (mode : CheckMode) (now : Nat) (st : Ctrl)
    (hrun : mode ∈ st.running)
    (hc1 : 1 ≤ (alGet mode st.activeWorkers).getD 0)
    (hinv : 2 ≤ (alGet mode st.activeWorkers).getD 0 ∨
            ∃ j ∈ st.db.jobs, j.mode = mode ∧ j.status = JobStatus.pending) :
    (workerLoopIter wid mode now st).1.running = st.running ∧
    (workerLoopIter wid mode now st).1.checkStartTime = st.checkStartTime ∧
    (workerLoopIter wid mode now st).1.checkEndTime = st.checkEndTime ∧
    (workerLoopIter wid mode now st).1.workerIdCounter = st.workerIdCounter ∧
    (workerLoopIter wid mode now st).1.log.files = st.log.files ∧
    1 ≤ (alGet mode (workerLoopIter wid mode now st).1.activeWorkers).getD 0 := by
  unfold workerLoopIter
  rw [if_pos hrun]
  cases hclaim : claimNextPendingJob mode st.db with
  | mk ores db2 =>
    cases ores with
    | some r =>
      dsimp only
      refine ⟨rfl, rfl, rfl, rfl, ?_, ?_⟩
      · show (setWorkerFile wid (fileOrDefault r.file).path st.log).files = st.log.files
        exact setWorkerFile_files _ _ _
      · show 1 ≤ (alGet mode st.activeWorkers).getD 0
        exact hc1
    | none =>
      have h1 : (claimNextPendingJob mode st.db).1 = none := by rw [hclaim]
      have hdb2 : db2 = st.db := by
        have h2 := claim_none_db h1
        rw [hclaim] at h2
        exact h2
      have hcur2 : 2 ≤ (alGet mode st.activeWorkers).getD 0 := by
        rcases hinv with h | h
        · exact h
        · obtain ⟨r, hr⟩ := claim_some_of_pending h
          rw [h1] at hr
          simp at hr
      obtain ⟨n, hsome, hn⟩ : ∃ n, alGet mode st.activeWorkers = some n ∧ 2 ≤ n := by
        cases halg : alGet mode st.activeWorkers with
        | none => rw [halg] at hcur2; simp [Option.getD] at hcur2
        | some n => rw [halg] at hcur2; exact ⟨n, rfl, hcur2⟩
      subst hdb2
      dsimp only
      have hlast := exitWorker_not_last wid mode now st n hsome hn
      have hframe := exitWorker_frame wid mode now st
      refine ⟨hlast.1, hframe.2.1, hlast.2.1, hframe.2.2.1, ?_, ?_⟩
      · show (exitWorker wid mode now st).log.files = st.log.files
        exact hframe.2.2.2
      · show 1 ≤ (alGet mode (exitWorker wid mode now st).activeWorkers).getD 0
        rw [hlast.2.2.2]
        show 1 ≤ n - 1
        omega

/-- Effect of one `worker(...)` synchronous prefix during the spawn loop:
with the mode active and either a live worker already counted or a pending
job available, it never deactivates anything, leaves the timing and the
counter alone, initialises exactly this worker's durable log, and leaves
the mode's live count positive. -/
theorem workerStart_effect (wid : Nat) (mode : CheckMode) (now : Nat) (st : Ctrl)
    (hrun : mode ∈ st.running)
    (hinv : 1 ≤ (alGet mode st.activeWorkers).getD 0 ∨
            ∃ j ∈ st.db.jobs, j.mode = mode ∧ j.status = JobStatus.pending) :
    (workerStart wid mode now st).1.running = st.running ∧
    (workerStart wid mode now st).1.checkStartTime = st.checkStartTime ∧
    (workerStart wid mode now st).1.checkEndTime = st.checkEndTime ∧
    (workerStart wid mode now st).1.workerIdCounter = st.workerIdCounter ∧
    (workerStart wid mode now st).1.log.files = alSet wid [] st.log.files ∧
    1 ≤ (alGet mode (workerStart wid mode now st).1.activeWorkers).getD 0 := by
  have hget1 : alGet mode (startState wid mode st).activeWorkers =
      some ((alGet mode st.activeWorkers).getD 0 + 1) :=
    alGet_alSet_self _ _ _
  have hrun2 : mode ∈ (startState wid mode st).running := hrun
  have hc1 : 1 ≤ (alGet mode (startState wid mode st).activeWorkers).getD 0 := by
    rw [hget1]
    simp
  have hinv2 : 2 ≤ (alGet mode (startState wid mode st).activeWorkers).getD 0 ∨
      ∃ j ∈ (startState wid mode st).db.jobs, j.mode = mode ∧ j.status = JobStatus.pending := by
    rcases hinv with h | h
    · left
      rw [hget1]
      show 2 ≤ (alGet mode st.activeWorkers).getD 0 + 1
      omega
    · right
      exact h
  have h := workerLoopIter_effect wid mode now (startState wid mode st) hrun2 hc1 hinv2
  exact ⟨h.1, h.2.1, h.2.2.1, h.2.2.2.1, h.2.2.2.2.1, h.2.2.2.2.2⟩

/-- Effect of the whole spawn loop: with the mode active and the spawn
invariant, it deactivates nothing, leaves the timing alone, advances the
worker-id counter by exactly the concurrency, and changes the durable logs
only by initialising the fresh worker ids. -/
theorem spawnWorkers_effect (mode : CheckMode) (now : Nat) :
    ∀ (n : Nat) (st : Ctrl), mode ∈ st.running →
    (1 ≤ (alGet mode st.activeWorkers).getD 0 ∨
      ∃ j ∈ st.db.jobs, j.mode = mode ∧ j.status = JobStatus.pending) →
    (spawnWorkers mode now n st).1.running = st.running ∧
    (spawnWorkers mode now n st).1.checkStartTime = st.checkStartTime ∧
    (spawnWorkers mode now n st).1.checkEndTime = st.checkEndTime ∧
    (spawnWorkers mode now n st).1.workerIdCounter = st.workerIdCounter + n ∧
    (∀ id2, (id2 ≤ st.workerIdCounter ∨ st.workerIdCounter + n < id2) →
      alGet id2 (spawnWorkers mode now n st).1.log.files = alGet id2 st.log.files) ∧
    (∀ id2, st.workerIdCounter < id2 → id2 ≤ st.workerIdCounter + n →
      alGet id2 (spawnWorkers mode now n st).1.log.files = some []) := by
  intro n
  induction n with
  | zero =>
    intro st hrun hinv
    refine ⟨rfl, rfl, rfl, rfl, fun id2 _ => rfl, fun id2 hlt hle => ?_⟩
    omega
  | succ n ih =>
    intro st hrun hinv
    have hs := workerStart_effect (st.workerIdCounter + 1) mode now
      { st with workerIdCounter := st.workerIdCounter + 1 } hrun hinv
    set p := workerStart (st.workerIdCounter + 1) mode now
      { st with workerIdCounter := st.workerIdCounter + 1 } with hp
    have hrunp : mode ∈ p.1.running := by rw [hs.1]; exact hrun
    have hinvp : 1 ≤ (alGet mode p.1.activeWorkers).getD 0 ∨
        ∃ j ∈ p.1.db.jobs, j.mode = mode ∧ j.status = JobStatus.pending :=
      Or.inl hs.2.2.2.2.2
    have hq := ih p.1 hrunp hinvp
    have hps : (spawnWorkers mode now (Nat.succ n) st).1 = (spawnWorkers mode now n p.1).1 := by
      rfl
    have hcp : p.1.workerIdCounter = st.workerIdCounter + 1 := hs.2.2.2.1
    refine ⟨?_, ?_, ?_, ?_, ?_, ?_⟩
    · rw [hps, hq.1, hs.1]
    · rw [hps, hq.2.1, hs.2.1]
    · rw [hps, hq.2.2.1, hs.2.2.1]
    · rw [hps, hq.2.2.2.1, hcp]
      omega
    · intro id2 hrange
      have hne : id2 ≠ st.workerIdCounter + 1 := by omega
      have h1 : alGet id2 (spawnWorkers mode now n p.1).1.log.files = alGet id2 p.1.log.files := by
        refine hq.2.2.2.2.1 id2 ?_
        rw [hcp]
        omega
      rw [hps, h1, hs.2.2.2.2.1, alGet_alSet_ne _ _ _ _ hne]
    · intro id2 hlt hle
      by_cases hid : id2 = st.workerIdCounter + 1
      · have h1 : alGet id2 (spawnWorkers mode now n p.1).1.log.files =
            alGet id2 p.1.log.files := by
          refine hq.2.2.2.2.1 id2 ?_
          rw [hcp]
          omega
        rw [hps, h1, hs.2.2.2.2.1, hid]
        exact alGet_alSet_self _ _ _
      · rw [hps]
        refine hq.2.2.2.2.2 id2 ?_ ?_ <;> rw [hcp] <;> omega

/-! ## Claim theorems -/

/-- Sample rows for concrete witnesses. -/
def sampleJob : JobRecord :=
  { id := 1, file_id := 1, mode := CheckMode.quick, status := JobStatus.pending,
    error_message := none, duration := none, created_at := 0, completed_at := none }

def claimWitnessDB : DB :=
  { files := [], jobs := [sampleJob, { sampleJob with id := 2, file_id := 2 }], nextJobId := 3 }

def defaultTrace : CheckMode × DB × ClaimResult :=
  (CheckMode.quick, claimWitnessDB, { job := sampleJob, file := none })

/-- C1: for every mode and every sequence of `claimNextPendingJob` calls,
each Job id is returned by at most one call (no double-claim); the
select-and-update runs inside one synchronous `db.transaction`, so each
call is a single atomic step of the model; every returned job has status
`processing` and arose from a `pending` row of the requested mode of the
database the call saw — a row of a different mode or a non-pending status
is never returned. -/
theorem claimNextPendingJob_no_double_claim :
    ∀ (modes : List CheckMode) (db : DB),
      (((claimSeqT modes db).1.map (fun t => t.2.2.job.id)).Nodup) ∧
      ∀ t ∈ (claimSeqT modes db).1,
        t.2.2.job.status = JobStatus.processing ∧ t.2.2.job.mode = t.1 ∧
        ∃ j0 ∈ t.2.1.jobs, j0.status = JobStatus.pending ∧ j0.mode = t.1 ∧
          t.2.2.job = { j0 with status := JobStatus.processing } :=
  fun modes db => ⟨claimSeqT_nodup modes db, claimSeqT_sound modes db⟩

theorem claimNextPendingJob_no_double_claim_witness :
    (((claimSeqT [CheckMode.quick, CheckMode.quick] claimWitnessDB).1.map
      (fun t => t.2.2.job.id)).Nodup) ∧
    ((claimSeqT [CheckMode.quick, CheckMode.quick] claimWitnessDB).1.getD 0
      defaultTrace).2.2.job.status = JobStatus.processing := by
  have h := claimNextPendingJob_no_double_claim [CheckMode.quick, CheckMode.quick] claimWitnessDB
  refine ⟨h.1, ?_⟩
  have hmem : ((claimSeqT [CheckMode.quick, CheckMode.quick] claimWitnessDB).1.getD 0
      defaultTrace) ∈ (claimSeqT [CheckMode.quick, CheckMode.quick] claimWitnessDB).1 := by
    decide
  exact (h.2 _ hmem).1

/-- `Set.delete` removes the element. -/
theorem setDelete_not_mem (m : CheckMode) (l : List CheckMode) : m ∉ setDelete m l := by
  intro h
  have := List.mem_filter.mp h
  simp at this

/-- C2: after `stopChecking(mode)`, no pending or processing Job row of the
mode remains (deleted immediately), the mode is out of the active set, and
a worker whose invocation was in flight resumes against the stopped state
without writing its outcome to the job store: the jobs table is exactly
what the stop left. -/
theorem stopChecking_discards :
    ∀ (st : Ctrl) (s : Susp) (res : CheckResult) (now : Nat),
      (∀ j ∈ (stopChecking (some s.mode) st).db.jobs,
        ¬ (j.mode = s.mode ∧
           (j.status = JobStatus.pending ∨ j.status = JobStatus.processing))) ∧
      s.mode ∉ (stopChecking (some s.mode) st).running ∧
      (workerResume s res now (stopChecking (some s.mode) st)).1.db.jobs =
        (stopChecking (some s.mode) st).db.jobs := by
  intro st s res now
  have hnot : s.mode ∉ (stopChecking (some s.mode) st).running := by
    show s.mode ∉ setDelete s.mode st.running
    exact setDelete_not_mem _ _
  refine ⟨?_, hnot, ?_⟩
  · intro j hj hcontra
    have hj2 : j ∈ deletePendingAndProcessingJobs (some s.mode) st.db.jobs := hj
    have := (List.mem_filter.mp hj2).2
    simp only [decide_eq_true_eq] at this
    exact this ⟨hcontra.2, Or.inr (by rw [hcontra.1])⟩
  · unfold workerResume
    rw [if_neg hnot]
    exact congrArg (fun d => d.jobs)
      (exitWorker_frame s.wid s.mode now (stopChecking (some s.mode) st)).1

def stopWitnessCtrl : Ctrl :=
  { emptyCtrl with
    running := [CheckMode.quick],
    db := { files := [], jobs := [{ sampleJob with status := JobStatus.processing }],
            nextJobId := 2 } }

def stopWitnessSusp : Susp :=
  { wid := 1, mode := CheckMode.quick, job := { sampleJob with status := JobStatus.processing },
    file := fileOrDefault none }

theorem stopChecking_discards_witness :
    CheckMode.quick ∉ (stopChecking (some CheckMode.quick) stopWitnessCtrl).running ∧
    (workerResume stopWitnessSusp { success := true } 9
        (stopChecking (some CheckMode.quick) stopWitnessCtrl)).1.db.jobs =
      (stopChecking (some CheckMode.quick) stopWitnessCtrl).db.jobs := by
  have h := stopChecking_discards stopWitnessCtrl stopWitnessSusp { success := true } 9
  exact ⟨h.2.1, h.2.2⟩

/-- C3: `startChecking` is rejected without any effect — it returns `false`,
leaves the whole state (job store, logs, active-mode set, counters, epoch
times, events) untouched and spawns no worker — whenever the mode is
already active or the batch is empty. -/
theorem startChecking_rejects :
    ∀ (st : Ctrl) (mode : CheckMode) (fids : List Nat) (c now : Nat),
      mode ∈ st.running ∨ fids = [] →
      startChecking mode fids c now st = (false, st, []) := by
  intro st mode fids c now h
  unfold startChecking
  rcases h with h | h
  · rw [if_pos h]
  · by_cases hm : mode ∈ st.running
    · rw [if_pos hm]
    · rw [if_neg hm, if_pos h]

theorem startChecking_rejects_witness :
    startChecking CheckMode.quick [] 4 0 emptyCtrl = (false, emptyCtrl, []) :=
  startChecking_rejects emptyCtrl CheckMode.quick [] 4 0 (Or.inr rfl)

/-- C4: when the last live worker of the last active mode exits, the
active-mode set becomes empty, the run end time is recorded, and exactly
one `check_complete` event carrying the final aggregate stats is appended;
and in the end-to-end scenario (3 files, `full` mode, concurrency 2, file
2's invocation failing) the final stats are completed 2 / error 1 /
pending 0 / processing 0, with `check_complete` fired exactly once. -/
theorem check_complete_on_last_worker_exit :
    (∀ (st : Ctrl) (mode : CheckMode) (wid now : Nat),
      alGet mode st.activeWorkers = some 1 → st.running = [mode] →
      (exitWorker wid mode now st).running = [] ∧
      (exitWorker wid mode now st).checkEndTime = some now ∧
      (exitWorker wid mode now st).events = st.events ++
        [{ type := FileEventType.check_complete, stats := some (getJobStats st.db.jobs) }]) ∧
    getJobStats scenarioFinal.db.jobs =
      { total := 3, pending := some 0, processing := some 0,
        completed := some 2, error := some 1 } ∧
    scenarioFinal.events.countP (fun e => decide (e.type = FileEventType.check_complete)) = 1 ∧
    scenarioFinal.running = [] ∧
    scenarioFinal.checkEndTime = some 3 := by
  refine ⟨?_, by decide, by decide, by decide, by decide⟩
  intro st mode wid now h1 h2
  have hdel : setDelete mode st.running = [] := by
    rw [h2]
    simp [setDelete]
  unfold exitWorker
  rw [h1]
  dsimp only
  rw [if_neg (by decide : ¬ (1 : Nat) = 0)]
  have hget : alGet mode (alSet mode (1 - 1) st.activeWorkers) = some (1 - 1) :=
    alGet_alSet_self _ _ _
  rw [hget]
  simp only [Option.getD_some]
  rw [if_true]
  rw [hdel]
  rw [if_pos rfl]
  exact ⟨rfl, rfl, rfl⟩

def lastWorkerCtrl : Ctrl :=
  { emptyCtrl with running := [CheckMode.quick], activeWorkers := [(CheckMode.quick, 1)] }

theorem check_complete_on_last_worker_exit_witness :
    (exitWorker 1 CheckMode.quick 7 lastWorkerCtrl).running = [] ∧
    (exitWorker 1 CheckMode.quick 7 lastWorkerCtrl).checkEndTime = some 7 := by
  have h := check_complete_on_last_worker_exit.1 lastWorkerCtrl CheckMode.quick 1 7
    (by decide) (by decide)
  exact ⟨h.1, h.2.1⟩

/-- C5: `getJobStats` is one aggregate query over one snapshot of the jobs
table (a single pure function of the job list in this model), and on the
spec's scenario — 5 seeded pending jobs, then 2 driven to `completed` and
1 to `error` — it returns total 5, pending 2, processing 0, completed 2,
error 1. -/
theorem getJobStats_snapshot_scenario :
    getJobStats statsScenarioJobs =
      { total := 5, pending := some 2, processing := some 0,
        completed := some 2, error := some 1 } := by
  decide

def roundTripTime : Str := "2024-01-01T00:00:00.000Z".toList

/-- C6 (amended): for every worker id and every sequence of
`appendWorkerOutput` calls on a known worker whose data contains no
newline (and whose times are `toISOString` timestamps, as the code always
produces), a fresh `getWorkerOutputs()` read after the in-memory state is
wiped reconstructs the full ordered line history exactly — each appended
line once, in order, with its stream tag and data text reproduced — with
status defaulted to `stopped`.  The original claim fails for data
containing a newline: the durable format is line-oriented, so such data is
split and only its first physical line survives the regex parse. -/
theorem getWorkerOutputs_roundTrip :
    ∀ (wid : Nat) (calls : List AppendCall),
      (∀ c ∈ calls, isIsoTime c.time ∧ '\n' ∉ c.data) →
      alGet wid (getWorkerOutputs (wipeMemory
        (appendAll wid calls (initWorker wid { workerStatus := [], files := [] })))) =
        some { logs := calls.map AppendCall.toLine, currentFile := none,
               status := WorkerRunStatus.stopped } := by
  intro wid calls h
  have hmem : alGet wid (initWorker wid { workerStatus := [], files := [] }).workerStatus =
      some { status := WorkerRunStatus.running } :=
    alGet_alSet_self _ _ _
  have hfile : alGet wid (initWorker wid { workerStatus := [], files := [] }).files =
      some [] :=
    alGet_alSet_self _ _ _
  obtain ⟨hf, hm⟩ := appendAll_content wid calls _ _ _ hmem hfile
  rw [List.nil_append] at hf
  have hlines : ∀ l ∈ calls.map AppendCall.toLine, isIsoTime l.time ∧ '\n' ∉ l.data := by
    intro l hl
    obtain ⟨c, hc, rfl⟩ := List.mem_map.mp hl
    exact h c hc
  have hread := readWorkerLogs_logContent _ hlines
  have hout := getWorkerOutputs_wiped _ wid _ hf
  rw [hout, hread]

theorem getWorkerOutputs_roundTrip_witness :
    alGet 1 (getWorkerOutputs (wipeMemory (appendAll 1
      [{ time := roundTripTime, stream := LogStream.stdout, data := "hello".toList }]
      (initWorker 1 { workerStatus := [], files := [] })))) =
      some { logs := [{ time := roundTripTime, stream := LogStream.stdout,
                        data := "hello".toList }],
             currentFile := none, status := WorkerRunStatus.stopped } := by
  have h := getWorkerOutputs_roundTrip 1
    [{ time := roundTripTime, stream := LogStream.stdout, data := "hello".toList }]
    (by decide)
  exact h

/-- C6 counterexample: appending data `"a\nb"` (one call) and re-reading
after a restart yields a single line whose data is `"a"`, not the appended
`"a\nb"` — the appended line is not reproduced exactly. -/
theorem getWorkerOutputs_newline_counterexample :
    (alGet 1 (getWorkerOutputs (wipeMemory (appendAll 1
      [{ time := roundTripTime, stream := LogStream.stdout, data := "a\nb".toList }]
      (initWorker 1 { workerStatus := [], files := [] }))))).map WorkerSnapshot.logs =
      some [{ time := roundTripTime, stream := LogStream.stdout, data := "a".toList }] ∧
    (alGet 1 (getWorkerOutputs (wipeMemory (appendAll 1
      [{ time := roundTripTime, stream := LogStream.stdout, data := "a\nb".toList }]
      (initWorker 1 { workerStatus := [], files := [] }))))).map WorkerSnapshot.logs ≠
      some [{ time := roundTripTime, stream := LogStream.stdout, data := "a\nb".toList }] := by
  decide

/-- Rows already terminal with a given id survive the rest of a worker loop
pass untouched (a later claim only flips a `pending` row). -/
theorem workerLoopIter_keeps_error_rows (wid : Nat) (mode : CheckMode) (now : Nat) (st : Ctrl)
    (x : Nat) (M : Option String)
    (h : ∀ j ∈ st.db.jobs, j.id = x →
      j.status = JobStatus.error ∧ j.error_message = M) :
    ∀ j ∈ (workerLoopIter wid mode now st).1.db.jobs, j.id = x →
      j.status = JobStatus.error ∧ j.error_message = M := by
  unfold workerLoopIter
  by_cases hrun : mode ∈ st.running
  · rw [if_pos hrun]
    cases hclaim : claimNextPendingJob mode st.db with
    | mk ores db2 =>
      cases ores with
      | some r =>
        dsimp only
        intro j hj hid
        obtain ⟨j0, hj0, hpend, hmode, hjob, _, _, hjobs⟩ := claim_some_spec hclaim
        have hj0x : j0.id ≠ x := by
          intro hx
          have := h j0 hj0 hx
          rw [this.1] at hpend
          exact JobStatus.noConfusion hpend
        have hj2 : j ∈ db2.jobs := hj
        rw [hjobs] at hj2
        obtain ⟨y, hy, hfy⟩ := List.mem_map.mp hj2
        by_cases hyid : y.id = j0.id
        · rw [if_pos hyid] at hfy
          subst hfy
          have hyx : y.id = x := hid
          exact absurd (hyid.symm.trans hyx) hj0x
        · rw [if_neg hyid] at hfy
          subst hfy
          exact h y hy hid
      | none =>
        dsimp only
        have h1 : (claimNextPendingJob mode st.db).1 = none := by rw [hclaim]
        have hdb2 : db2 = st.db := by
          have h2 := claim_none_db h1
          rw [hclaim] at h2
          exact h2
        subst hdb2
        intro j hj hid
        have hj2 : j ∈ st.db.jobs := by
          have := (exitWorker_frame wid mode now st).1
          rw [this] at hj
          exact hj
        exact h j hj2 hid
  · rw [if_neg hrun]
    intro j hj hid
    have hj2 : j ∈ st.db.jobs := by
      have := (exitWorker_frame wid mode now st).1
      rw [this] at hj
      exact hj
    exact h j hj2 hid

/-- C7 (amended): a check invocation yields a failure outcome exactly when
the external tool exits nonzero (or its process errors, or it is killed)
or produces diagnostic text; the Job's message is the trimmed captured
diagnostic text when that text is nonempty, and a synthesized
`<cmd> exited with code <code>` message when the tool exited nonzero with
no diagnostic text; a spawn failure resolves through the same path with a
synthesized `Failed to spawn` message; and while the mode is still active
the worker persists a failure by driving the claimed Job's rows to
`error` with that message. -/
theorem checkFile_failure_class :
    (∀ (cmd : String) (result : CmdResult) (d : Option String),
      ((checkFileDecision cmd result d).success = false ↔
        (result.code ≠ some 0 ∨ jsTrim result.stderr ≠ ""))) ∧
    (∀ (cmd : String) (result : CmdResult) (d : Option String),
      jsTrim result.stderr ≠ "" →
      (checkFileDecision cmd result d).error = some (jsTrim result.stderr)) ∧
    (∀ (cmd : String) (result : CmdResult) (d : Option String),
      result.code ≠ some 0 → jsTrim result.stderr = "" →
      (checkFileDecision cmd result d).error =
        some (cmd ++ " exited with code " ++ codeStr result.code)) ∧
    (∀ (cmd errMessage : String) (d : Option String),
      (checkFileDecision cmd (spawnFailureResult cmd errMessage) d).success = false) ∧
    (∀ (st : Ctrl) (s : Susp) (res : CheckResult) (now : Nat),
      s.mode ∈ st.running → res.success = false →
      ∀ j ∈ (workerResume s res now st).1.db.jobs, j.id = s.job.id →
        j.status = JobStatus.error ∧ j.error_message = jsFalsyToNull res.error) := by
  refine ⟨?_, ?_, ?_, ?_, ?_⟩
  · intro cmd result d
    by_cases h : result.code ≠ some 0 ∨ jsTrim result.stderr ≠ ""
    · simp [checkFileDecision, h]
    · simp [checkFileDecision, h]
  · intro cmd result d h
    unfold checkFileDecision
    rw [if_pos (Or.inr h)]
    dsimp only
    rw [if_neg h]
  · intro cmd result d hc hs
    unfold checkFileDecision
    rw [if_pos (Or.inl hc)]
    dsimp only
    rw [if_pos hs]
  · intro cmd errMessage d
    unfold checkFileDecision
    rw [if_pos (Or.inl (by simp [spawnFailureResult]))]
  · intro st s res now hrun hres
    unfold workerResume
    rw [if_pos hrun]
    rw [hres]
    dsimp only
    rw [if_neg (by simp : ¬ false = true)]
    by_cases hdur : jsTruthy res.duration = true
    · rw [if_pos hdur]
      refine workerLoopIter_keeps_error_rows s.wid s.mode now _ s.job.id
        (jsFalsyToNull res.error) ?_
      intro j hj hid
      exact updateJobStatus_terminal_rows (Or.inr rfl) j hj hid |>.imp id (fun hh => hh.1)
    · rw [if_neg hdur]
      refine workerLoopIter_keeps_error_rows s.wid s.mode now _ s.job.id
        (jsFalsyToNull res.error) ?_
      intro j hj hid
      exact updateJobStatus_terminal_rows (Or.inr rfl) j hj hid |>.imp id (fun hh => hh.1)

theorem checkFile_failure_class_witness :
    (checkFileDecision "ffmpeg" { code := some 1, stdout := "", stderr := " boom \n" } none).success
      = false ∧
    (checkFileDecision "ffmpeg" { code := some 1, stdout := "", stderr := " boom \n" } none).error
      = some (jsTrim " boom \n") := by
  constructor
  · exact (checkFile_failure_class.1 "ffmpeg"
      { code := some 1, stdout := "", stderr := " boom \n" } none).mpr (Or.inl (by decide))
  · exact checkFile_failure_class.2.1 "ffmpeg"
      { code := some 1, stdout := "", stderr := " boom \n" } none (by decide)

/-- C7 counterexample: the external tool exits nonzero while producing no
diagnostic text; the code stores the synthesized message, not the (empty)
captured diagnostic text the claim promises. -/
theorem checkFile_nonzero_empty_stderr_counterexample :
    (checkFileDecision "ffprobe" { code := some 1, stdout := "", stderr := "" } none).success
      = false ∧
    (checkFileDecision "ffprobe" { code := some 1, stdout := "", stderr := "" } none).error
      = some "ffprobe exited with code 1" ∧
    (checkFileDecision "ffprobe" { code := some 1, stdout := "", stderr := "" } none).error
      ≠ some (jsTrim "") := by
  decide

/-- C8 (amended): a successful `startChecking` records the run start time,
clears the run end time, clears all worker logs and restarts the worker-id
counter from zero exactly when it activates the first mode from a
fully-idle state; activating a further mode while another is active leaves
the run start/end times untouched and preserves every existing worker log.
In both cases the worker-id counter then advances by the concurrency as
the new workers take fresh ids, and each new worker's own log is
initialised empty — so the counter and the log set are *not* left
byte-for-byte unchanged in the already-active case, contrary to the
original claim. -/
theorem startChecking_epoch :
    ∀ (st : Ctrl) (mode : CheckMode) (fids : List Nat) (c now : Nat),
      mode ∉ st.running → fids ≠ [] →
      (startChecking mode fids c now st).1 = true ∧
      (startChecking mode fids c now st).2.1.checkStartTime =
        (if st.running = [] then some now else st.checkStartTime) ∧
      (startChecking mode fids c now st).2.1.checkEndTime =
        (if st.running = [] then none else st.checkEndTime) ∧
      (startChecking mode fids c now st).2.1.workerIdCounter =
        (if st.running = [] then 0 else st.workerIdCounter) + c ∧
      (∀ id2, (id2 ≤ (if st.running = [] then 0 else st.workerIdCounter) ∨
               (if st.running = [] then 0 else st.workerIdCounter) + c < id2) →
        alGet id2 (startChecking mode fids c now st).2.1.log.files =
          (if st.running = [] then none else alGet id2 st.log.files)) ∧
      (∀ id2, (if st.running = [] then 0 else st.workerIdCounter) < id2 →
        id2 ≤ (if st.running = [] then 0 else st.workerIdCounter) + c →
        alGet id2 (startChecking mode fids c now st).2.1.log.files = some []) := by
  intro st mode fids c now h1 h2
  have hadd : setAdd mode st.running = st.running ++ [mode] := by
    unfold setAdd
    rw [if_neg h1]
  unfold startChecking
  rw [if_neg h1, if_neg h2]
  dsimp only
  rw [hadd]
  by_cases hidle : st.running = []
  · rw [hidle]
    simp only [if_pos rfl]
    rw [if_pos (by simp : (([] : List CheckMode) ++ [mode]).length = 1)]
    have hpend := createJobs_pending fids mode now st.db h2
    have heff := spawnWorkers_effect mode now c
      { db := createJobs fids mode now st.db,
        log := clearWorkers st.log,
        running := [] ++ [mode], activeWorkers := st.activeWorkers,
        workerIdCounter := 0, checkStartTime := some now, checkEndTime := none,
        events := st.events }
      (by simp) (Or.inr hpend)
    refine ⟨trivial, ?_, ?_, ?_, ?_, ?_⟩
    · exact heff.2.1
    · exact heff.2.2.1
    · exact heff.2.2.2.1
    · intro id2 hrange
      have := heff.2.2.2.2.1 id2 hrange
      rw [this]
      show alGet id2 ([] : List (Nat × Str)) = none
      rfl
    · intro id2 hlt hle
      exact heff.2.2.2.2.2 id2 hlt hle
  · rw [if_neg hidle]
    simp only [if_neg hidle]
    have hlen : ¬ (st.running ++ [mode]).length = 1 := by
      rw [List.length_append]
      have : 1 ≤ st.running.length := List.length_pos.mpr hidle
      simp only [List.length_singleton]
      omega
    rw [if_neg hlen]
    have hpend := createJobs_pending fids mode now st.db h2
    have heff := spawnWorkers_effect mode now c
      { db := createJobs fids mode now st.db,
        log := st.log,
        running := st.running ++ [mode], activeWorkers := st.activeWorkers,
        workerIdCounter := st.workerIdCounter, checkStartTime := st.checkStartTime,
        checkEndTime := st.checkEndTime, events := st.events }
      (by simp) (Or.inr hpend)
    refine ⟨trivial, ?_, ?_, ?_, ?_, ?_⟩
    · exact heff.2.1
    · exact heff.2.2.1
    · exact heff.2.2.2.1
    · intro id2 hrange
      exact heff.2.2.2.2.1 id2 hrange
    · intro id2 hlt hle
      exact heff.2.2.2.2.2 id2 hlt hle

def ctrlBusy : Ctrl :=
  { emptyCtrl with
    running := [CheckMode.quick], activeWorkers := [(CheckMode.quick, 1)],
    workerIdCounter := 5, checkStartTime := some 10 }

theorem startChecking_epoch_witness :
    (startChecking CheckMode.full [7] 1 99 ctrlBusy).2.1.checkStartTime = some 10 ∧
    (startChecking CheckMode.full [7] 1 99 ctrlBusy).2.1.workerIdCounter = 6 := by
  have h := startChecking_epoch ctrlBusy CheckMode.full [7] 1 99 (by decide) (by decide)
  constructor
  · have h2 := h.2.1
    rw [if_neg (by decide : ¬ ctrlBusy.running = [])] at h2
    exact h2
  · have h4 := h.2.2.2.1
    rw [if_neg (by decide : ¬ ctrlBusy.running = [])] at h4
    exact h4

/-- C8 counterexample: activating a second mode with concurrency 1 while
`quick` is active advances the worker-id counter from 5 to 6 — it is not
left unchanged as the original claim states. -/
theorem startChecking_epoch_counter_counterexample :
    (startChecking CheckMode.full [7] 1 99 ctrlBusy).2.1.workerIdCounter ≠
      ctrlBusy.workerIdCounter := by
  decide

/-- C9: on an empty job set `getJobStats` returns total 0 with the four
per-status sums NULL (SQL `SUM` over zero rows); on any non-empty job set
all four are numbers and the total is exactly their sum. -/
theorem getJobStats_empty_null :
    getJobStats [] = { total := 0, pending := none, processing := none,
                       completed := none, error := none } ∧
    ∀ jobs : List JobRecord, jobs ≠ [] →
      ∃ a b c d, getJobStats jobs =
        { total := a + b + c + d, pending := some a, processing := some b,
          completed := some c, error := some d } := by
  refine ⟨rfl, ?_⟩
  intro jobs hne
  refine ⟨jobs.countP (fun j => decide (j.status = JobStatus.pending)),
          jobs.countP (fun j => decide (j.status = JobStatus.processing)),
          jobs.countP (fun j => decide (j.status = JobStatus.completed)),
          jobs.countP (fun j => decide (j.status = JobStatus.error)), ?_⟩
  unfold getJobStats
  simp only [if_neg hne]
  rw [length_eq_statusCounts jobs]

theorem getJobStats_empty_null_witness :
    getJobStats [] = { total := 0, pending := none, processing := none,
                       completed := none, error := none } ∧
    ∃ a b c d, getJobStats [sampleJob] =
      { total := a + b + c + d, pending := some a, processing := some b,
        completed := some c, error := some d } :=
  ⟨getJobStats_empty_null.1, getJobStats_empty_null.2 [sampleJob] (by decide)⟩

/-- C10 (amended): `updateJobStatus` with a terminal status overwrites the
row's `error_message` and `duration` with the supplied values when those
are non-empty strings, and with NULL when they are omitted *or empty* (the
JS `|| null` coerces the empty string to NULL too), and stamps
`completed_at`; an update to a non-terminal status changes only the status
column, leaving `error_message`, `duration` and `completed_at` untouched;
rows with a different id are untouched either way. -/
theorem updateJobStatus_frame :
    ∀ (jobs : List JobRecord) (jid : Nat) (status : JobStatus) (em dur : Option String)
      (now i : Nat) (j0 : JobRecord),
      jobs.get? i = some j0 →
      (updateJobStatus jid status em dur now jobs).length = jobs.length ∧
      ∃ j1, (updateJobStatus jid status em dur now jobs).get? i = some j1 ∧
        j1.id = j0.id ∧ j1.file_id = j0.file_id ∧ j1.mode = j0.mode ∧
        j1.created_at = j0.created_at ∧
        (j0.id = jid → (status = JobStatus.completed ∨ status = JobStatus.error) →
          j1.status = status ∧ j1.error_message = jsFalsyToNull em ∧
          j1.duration = jsFalsyToNull dur ∧ j1.completed_at = some now) ∧
        (j0.id = jid → ¬ (status = JobStatus.completed ∨ status = JobStatus.error) →
          j1.status = status ∧ j1.error_message = j0.error_message ∧
          j1.duration = j0.duration ∧ j1.completed_at = j0.completed_at) ∧
        (j0.id ≠ jid → j1 = j0) := by
  intro jobs jid status em dur now i j0 hget
  unfold updateJobStatus
  by_cases hterm : status = JobStatus.completed ∨ status = JobStatus.error
  · rw [if_pos hterm]
    refine ⟨List.length_map _ _, ?_⟩
    refine ⟨_, by rw [List.get?_map, hget]; rfl, ?_⟩
    dsimp only
    by_cases hid : j0.id = jid
    · rw [if_pos hid]
      exact ⟨rfl, rfl, rfl, rfl,
        fun _ _ => ⟨rfl, rfl, rfl, rfl⟩,
        fun _ hn => absurd hterm hn,
        fun hn => absurd hid hn⟩
    · rw [if_neg hid]
      exact ⟨rfl, rfl, rfl, rfl,
        fun hh _ => absurd hh hid,
        fun hh _ => absurd hh hid,
        fun _ => rfl⟩
  · rw [if_neg hterm]
    refine ⟨List.length_map _ _, ?_⟩
    refine ⟨_, by rw [List.get?_map, hget]; rfl, ?_⟩
    dsimp only
    by_cases hid : j0.id = jid
    · rw [if_pos hid]
      exact ⟨rfl, rfl, rfl, rfl,
        fun _ ht => absurd ht hterm,
        fun _ _ => ⟨rfl, rfl, rfl, rfl⟩,
        fun hn => absurd hid hn⟩
    · rw [if_neg hid]
      exact ⟨rfl, rfl, rfl, rfl,
        fun hh _ => absurd hh hid,
        fun hh _ => absurd hh hid,
        fun _ => rfl⟩

def c10Job : JobRecord :=
  { id := 1, file_id := 1, mode := CheckMode.quick, status := JobStatus.processing,
    error_message := some "old failure", duration := some "9:59", created_at := 0,
    completed_at := none }

theorem updateJobStatus_frame_witness :
    (updateJobStatus 1 JobStatus.processing none none 5 [c10Job]).length = [c10Job].length :=
  (updateJobStatus_frame [c10Job] 1 JobStatus.processing none none 5 0 c10Job (by decide)).1

/-- C10 counterexample: a terminal update supplying the empty string as
`errorMessage`/`duration` stores NULL, not the supplied empty string. -/
theorem updateJobStatus_empty_string_counterexample :
    (updateJobStatus 1 JobStatus.completed (some "") (some "") 5 [c10Job]).map
      JobRecord.error_message = [none] ∧
    (updateJobStatus 1 JobStatus.completed (some "") (some "") 5 [c10Job]).map
      JobRecord.error_message ≠ [some ""] ∧
    (updateJobStatus 1 JobStatus.completed (some "") (some "") 5 [c10Job]).map
      JobRecord.duration = [none] := by
  decide
